import Mathlib

/-!
Verification development for the keystroke-resolution engine of the
vscode-modaledit extension.  The definitions below are a shallow embedding of
`src/actions.ts` (action grammar, keymap validation, key-press handling and
action execution) and of the incremental-search part of `src/commands.ts`.

JavaScript objects are modelled with an explicit arena (`heap : List KmObj`)
so that object identity (used by `keymap == rootKeymap` and by the keymap-id
resolution mechanism) is an address comparison, exactly as in the source.
JavaScript numbers are modelled as `Int` (the configurations and counters the
claims concern are integral).  `eval` of configuration expressions and
`vscode.commands.executeCommand` are host capabilities; they are modelled as
oracles indexed by an invocation counter, since the editor state they consult
can change between calls.
-/

/-- JavaScript values as far as the engine observes them: results of `eval`
and arguments of commands.  `undef` is JavaScript `undefined`. -/
inductive JSVal where
  | num (n : Int)
  | str (s : String)
  | bool (b : Bool)
  | undef
deriving DecidableEq

/-- JavaScript truthiness on `JSVal`. -/
def jsTruthy : JSVal → Bool
  | .num n => n ≠ 0
  | .str s => s ≠ ""
  | .bool b => b
  | .undef => false

/-- `JSON.stringify` on the values above; `undefined` stringifies to
JavaScript `undefined` (no string), which is what `executeConditional`
relies on. -/
def jsonStringify : JSVal → Option String
  | .num n => some (toString n)
  | .str s => some ("\"" ++ s ++ "\"")
  | .bool b => some (if b then "true" else "false")
  | .undef => none

/-- Argument value passed to a host command invocation: no argument, an
evaluated expression result, or a literal args object (identified by a tag,
since the engine never inspects it). -/
inductive ArgVal where
  | noArg
  | evald (v : JSVal)
  | objLit (tag : Nat)
deriving DecidableEq

/-- The `args` field of a `Parameterized` command: an expression string or a
literal object. -/
inductive ArgSpec where
  | exprArg (s : String)
  | objArg (tag : Nat)
deriving DecidableEq

/-- The `repeat` field of a `Parameterized` command: a number or an
expression string. -/
inductive RepSpec where
  | num (n : Int)
  | expr (s : String)
deriving DecidableEq

/-- The `Command` type of `actions.ts`: a command name, a sequence, a
conditional, or a parameterized command. -/
inductive Cmd where
  | literal (name : String)
  | seq (cmds : List Cmd)
  | cond (condition : String) (branches : List (String × Cmd))
  | param (command : String) (args : Option ArgSpec) (rep : Option RepSpec)

/-- A binding value stored under a key of a keymap object.  `km` is a
reference (heap address) to a keymap object; `num` is a not-yet-resolved
numeric keymap id; `undef` models a binding that was assigned JavaScript
`undefined` (which the expansion loop can do when an id is unresolved). -/
inductive AVal where
  | cmd (c : Cmd)
  | km (addr : Nat)
  | num (n : Int)
  | undef

/-- A keymap object: optional numeric `id`, optional `help` string, and the
ordered key-to-action bindings.  `id` and `help` are ordinary object
properties in the source that the validation loop skips by name; they are
kept apart here so the skip is structural. -/
structure KmObj where
  id : Option Int
  help : Option String
  binds : List (String × AVal)

/-- Ordered-association-list lookup (JavaScript property read). -/
def getAssoc {α β : Type} [DecidableEq α] (l : List (α × β)) (k : α) : Option β :=
  (l.find? (fun p => p.1 = k)).map (fun p => p.2)

/-- Ordered-association-list update: overwrite in place if the key exists,
append otherwise (JavaScript property write, preserving insertion order). -/
def setAssoc {α β : Type} [DecidableEq α] (l : List (α × β)) (k : α) (v : β) :
    List (α × β) :=
  match l with
  | [] => [(k, v)]
  | (k', v') :: rest =>
    if k' = k then (k, v) :: rest else (k', v') :: setAssoc rest k v

/-- State threaded through `validateAndResolveKeymaps`: the keymap arena,
the `keymapsById` table (id to address), the `errors` counter and the log
messages written through `log`. -/
structure VState where
  heap : List KmObj
  byId : List (Int × Nat)
  errors : Nat
  log : List String

/-- The local `error` helper inside `validateAndResolveKeymaps`. -/
def vError (st : VState) (msg : String) : VState :=
  { st with errors := st.errors + 1, log := st.log ++ ["ERROR: " ++ msg] }

/-- Read the current value of binding `key` of the keymap object at `addr`. -/
def getBind (st : VState) (addr : Nat) (key : String) : Option AVal :=
  (st.heap.get? addr).bind (fun ko => getAssoc ko.binds key)

/-- Write binding `key` of the keymap object at `addr`. -/
def setBind (st : VState) (addr : Nat) (key : String) (v : AVal) : VState :=
  match st.heap.get? addr with
  | none => st
  | some ko =>
    { st with heap := st.heap.set addr { ko with binds := setAssoc ko.binds key v } }

/-- A character matched by `.` in the key-range regular expression
`/^.([\-,].)+$/` (any character except a line terminator). -/
def dotOK (c : Char) : Bool :=
  c ≠ '\n' ∧ c ≠ '\r' ∧ c ≠ ' ' ∧ c ≠ ' '

/-- The `([\-,].)+` part of `keyRE`: a non-empty list of separator/character
pairs. -/
def pairsWF : List Char → Bool
  | [] => true
  | sep :: c :: rest => (sep = '-' ∨ sep = ',') ∧ dotOK c ∧ pairsWF rest
  | [_] => false

/-- `key.match(keyRE)` for `keyRE = /^.([\-,].)+$/`. -/
def matchKeyRE (key : String) : Bool :=
  match key.toList with
  | [] => false
  | c0 :: rest => dotOK c0 ∧ rest ≠ [] ∧ pairsWF rest

/-- The separator/character pairs of a key pattern, i.e. the characters at
indices (1,2),(3,4),… that the expansion loop walks with `i += 2`. -/
def keyPairs : List Char → List (Char × Char)
  | a :: b :: rest => (a, b) :: keyPairs rest
  | _ => []

/-- The inner loop `for (let i = first; i <= last; i++)` of the range
expansion: bind every character code in `[first, last]` to `tgt`. -/
def assignRange (st : VState) (addr : Nat) (first last : Nat) (tgt : AVal) : VState :=
  (List.range (last + 1 - first)).foldl
    (fun st k => setBind st addr (String.singleton (Char.ofNat (first + k))) tgt) st

/-- The key-range expansion loop of `validateAndResolveKeymaps`, walking the
separator pairs; `prev` is `key[i-1]`. -/
def expandPairs (st : VState) (addr : Nat) (key : String) (tgt : AVal)
    (prev : Char) : List (Char × Char) → VState
  | [] => st
  | (sep, c) :: rest =>
    let st :=
      if sep = '-' then
        let first := prev.toNat
        let last := c.toNat
        if first > last then
          vError st ("Invalid key range: \"" ++ key ++ "\"")
        else assignRange st addr first last tgt
      else
        let st := setBind st addr (String.singleton prev) tgt
        setBind st addr (String.singleton c) tgt
    expandPairs st addr key tgt c rest

/-- Call frames of `validateAndResolveKeymaps`: validating the keymap object
at an address, or iterating over the (snapshotted) key list of one.  The
`for … in` snapshot matches the JavaScript semantics that properties added
during enumeration are not visited, while values are read at visit time. -/
inductive VCall where
  | km (addr : Nat)
  | keys (addr : Nat) (ks : List String)

/-- `validateAndResolveKeymaps`, fuelled (the source function can diverge on
configurations where range expansion overwrites a later-visited key with an
already-resolved self-referential keymap, so a fuel bound is needed for a
total model).  On entering a keymap its `id` is registered in `byId` before
the children are visited; a numeric binding is looked up in `byId`, replaced
by the referenced keymap on success and reported with the binding left
unchanged on failure, in which case the local target becomes `undefined`;
range keys are then expanded to individual characters sharing the target. -/
def vrun : Nat → VState → VCall → Option VState
  | 0, _, _ => none
  | f + 1, st, .km addr =>
    match st.heap.get? addr with
    | none => some st
    | some ko =>
      let st :=
        match ko.id with
        | some i => { st with byId := setAssoc st.byId i addr }
        | none => st
      vrun f st (.keys addr (ko.binds.map (fun p => p.1)))
  | _ + 1, st, .keys _ [] => some st
  | f + 1, st, .keys addr (key :: rest) =>
    match getBind st addr key with
    | none => vrun f st (.keys addr rest)
    | some tgt0 =>
      let step : Option (VState × AVal) :=
        match tgt0 with
        | .km a' => (vrun f st (.km a')).map (fun st' => (st', .km a'))
        | .num n =>
          match getAssoc st.byId n with
          | none => some (vError st ("Undefined keymap id: " ++ toString n), .undef)
          | some a' => some (setBind st addr key (.km a'), .km a')
        | t => some (st, t)
      match step with
      | none => none
      | some (st, tgt) =>
        let st :=
          if matchKeyRE key then
            expandPairs st addr key tgt
              (key.toList.headD ' ') (keyPairs key.toList.tail)
          else if key.length ≠ 1 then
            vError st ("Invalid key binding: \"" ++ key ++ "\"")
          else st
        vrun f st (.keys addr rest)

/-- Events observable at the host boundary: a host command invocation
(`vscode.commands.executeCommand`), the error popup after a rejected
invocation, the error popup after a failed `eval`, and the warning popup for
an undefined key binding. -/
inductive Event where
  | call (name : String) (arg : ArgVal)
  | cmdError (name : String)
  | evalError (expr : String)
  | warn (msg : String)
deriving DecidableEq

/-- The value of the module-level `keymap` variable.  It normally references
a keymap object, but `execute` stores the raw action into it in the final
`else`, so a residual number (or `undefined`) can end up there. -/
inductive KmVar where
  | kmAddr (a : Nat)
  | kmNum (n : Int)
  | kmUndef
deriving DecidableEq

/-- The mutable module state of `actions.ts` during execution: the active
`keymap`, `lastCommand`, `keySequence`, the oracle counters for `eval` and
host-command invocations, and the trace of boundary events. -/
structure ExecState where
  km : KmVar
  lastCommand : Option String
  keySequence : List String
  evalCtr : Nat
  cmdCtr : Nat
  events : List Event
deriving DecidableEq

/-- Execution environment: the (already validated, immutable) keymap arena,
the address of `rootKeymap`, and the two host oracles. `evalOracle i s sel`
is the result of the `i`-th `eval` (of expression `s`, with the `selecting`
flag), `none` meaning the evaluation threw; `cmdOracle i` tells whether the
`i`-th host command invocation resolves or rejects. -/
structure Env where
  heap : List KmObj
  rootAddr : Nat
  evalOracle : Nat → String → Bool → Option JSVal
  cmdOracle : Nat → Bool

/-- `executeVSCommand`: invoke the host command; on success record the name
in `lastCommand`, on rejection show the error message and leave
`lastCommand` unchanged. -/
def executeVSCommand (env : Env) (st : ExecState) (name : String)
    (arg : ArgVal) : ExecState :=
  if env.cmdOracle st.cmdCtr then
    { st with cmdCtr := st.cmdCtr + 1,
              events := st.events ++ [.call name arg],
              lastCommand := some name }
  else
    { st with cmdCtr := st.cmdCtr + 1,
              events := st.events ++ [.call name arg, .cmdError name] }

/-- `evalString`: evaluate an expression through the oracle; a throwing
evaluation shows an error message and yields `undefined` (the source
function has no `return` in its catch block). -/
def evalString (env : Env) (st : ExecState) (s : String) (selecting : Bool) :
    JSVal × ExecState :=
  match env.evalOracle st.evalCtr s selecting with
  | some v => (v, { st with evalCtr := st.evalCtr + 1 })
  | none => (.undef, { st with evalCtr := st.evalCtr + 1,
                               events := st.events ++ [.evalError s] })

/-- The numeric-repeat loop of `exec` inside `executeParameterized`:
`for (let i = 0; i < repeat; i++) await executeVSCommand(...)`. -/
def execVSTimes (env : Env) (st : ExecState) (name : String) (arg : ArgVal) :
    Nat → ExecState
  | 0 => st
  | n + 1 => execVSTimes env (executeVSCommand env st name arg) name arg n

/-- The do-while loop of `exec` inside `executeParameterized`: run the
command, then re-evaluate the repeat expression and continue while truthy.
Fuelled, since the source loop need not terminate. -/
def doWhile (env : Env) (name : String) (arg : ArgVal) (repExpr : String)
    (selecting : Bool) : Nat → ExecState → Option ExecState
  | 0, _ => none
  | f + 1, st =>
    let st := executeVSCommand env st name arg
    let p := evalString env st repExpr selecting
    if jsTruthy p.1 then doWhile env name arg repExpr selecting f p.2
    else some p.2

/-- Truthiness of the `repeat` property (`if (action.repeat)`). -/
def repTruthy : Option RepSpec → Bool
  | none => false
  | some (.num n) => n ≠ 0
  | some (.expr s) => s ≠ ""

/-- Truthiness of the `args` property (`if (action.args)`). -/
def argsTruthy : Option ArgSpec → Bool
  | none => false
  | some (.exprArg s) => s ≠ ""
  | some (.objArg _) => true

/-- The resolved value of the local `repeat` variable of
`executeParameterized`: a count or a post-condition expression. -/
inductive RepVal where
  | count (n : Int)
  | expr (s : String)

/-- Resolution of the `repeat` property at the top of
`executeParameterized`: a truthy repeat that is an expression is evaluated
once; a numeric result (of the expression or of a literal number) is clamped
to a minimum of 1, any other result turns the expression into a
post-condition. -/
def resolveRep (env : Env) (st : ExecState) (rep : Option RepSpec)
    (selecting : Bool) : RepVal × ExecState :=
  if repTruthy rep then
    match rep with
    | some (.expr s) =>
      match evalString env st s selecting with
      | (.num n, st2) => (.count (max 1 n), st2)
      | (_, st2) => (.expr s, st2)
    | some (.num n) => (.count (max 1 n), st)
    | none => (.count 1, st)
  else (.count 1, st)

/-- The `exec` subroutine of `executeParameterized`: run the command either
`repeat` times or as a do-while loop governed by the repeat expression. -/
def execRep (env : Env) (fuel : Nat) (command : String) (selecting : Bool)
    (rv : RepVal) (st : ExecState) (arg : ArgVal) : Option ExecState :=
  match rv with
  | .expr s => doWhile env command arg s selecting fuel st
  | .count n => some (execVSTimes env st command arg n.toNat)

/-- `executeParameterized`: resolve `repeat`, resolve `args` (evaluating an
expression argument exactly once), then run the `exec` subroutine. -/
def executeParameterized (env : Env) (fuel : Nat) (st : ExecState)
    (command : String) (args : Option ArgSpec) (rep : Option RepSpec)
    (selecting : Bool) : Option ExecState :=
  let r := resolveRep env st rep selecting
  if argsTruthy args then
    match args with
    | some (.exprArg s) =>
      let p := evalString env r.2 s selecting
      execRep env fuel command selecting r.1 p.2 (.evald p.1)
    | some (.objArg t) => execRep env fuel command selecting r.1 r.2 (.objLit t)
    | none => execRep env fuel command selecting r.1 r.2 .noArg
  else execRep env fuel command selecting r.1 r.2 .noArg

/-- The branch key chosen by `executeConditional`:
`isString(res) ? res : JSON.stringify(res)` (note that an empty string is
not `isString` in the source, because `""` is falsy). -/
def condBranchKey (res : JSVal) : Option String :=
  match res with
  | .str s => if s = "" then jsonStringify (.str s) else some s
  | v => jsonStringify v

/-- Property read `cond[branch]` on a conditional object: the `condition`
property holds the condition string itself (a string command), every other
present property is a branch command. -/
def condLookup (condition : String) (branches : List (String × Cmd))
    (b : String) : Option Cmd :=
  if b = "condition" then some (.literal condition)
  else getAssoc branches b

/-- The `isCommand` shape test on (already classified) commands; only the
truthiness conditions remain: an empty command name is falsy and hence not
`isString`. -/
def isCommandB : Cmd → Bool
  | .literal s => decide (s ≠ "")
  | .seq [] => true
  | .seq (c :: cs) => isCommandB c && isCommandB (.seq cs)
  | .cond c [] => decide (c ≠ "")
  | .cond c ((_, b) :: bs) => isCommandB b && isCommandB (.cond c bs)
  | .param c _ _ => decide (c ≠ "")

/-- Call frames for the mutually recursive execution functions of
`actions.ts`: `execute` on an action, the command dispatch inside it, and
the loop over a command sequence. -/
inductive RunCall where
  | act (a : AVal)
  | cmd1 (c : Cmd)
  | cmds (cs : List Cmd)

/-- Assignment to the module-level `keymap` variable. -/
def setKm (st : ExecState) (k : KmVar) : ExecState := { st with km := k }

/-- `execute` (and its helpers `executeConditional` and the
command-sequence loop), fuelled.  `execute` first resets `keymap` to
`rootKeymap`; a string invokes the host command, a sequence executes its
elements in order, a conditional evaluates its condition and executes the
branch selected by the stringified result (if any), a parameterized command
is delegated, and any remaining action is stored into `keymap`. -/
def run (env : Env) (selecting : Bool) : Nat → ExecState → RunCall → Option ExecState
  | 0, _, _ => none
  | f + 1, st, .act a =>
    let st := setKm st (.kmAddr env.rootAddr)
    match a with
    | .cmd c => run env selecting f st (.cmd1 c)
    | .km ad => some (setKm st (.kmAddr ad))
    | .num n => some (setKm st (.kmNum n))
    | .undef => some (setKm st .kmUndef)
  | f + 1, st, .cmd1 c =>
    match c with
    | .literal name => some (executeVSCommand env st name .noArg)
    | .seq cs => run env selecting f st (.cmds cs)
    | .cond condition branches =>
      let p := evalString env st condition selecting
      match condBranchKey p.1 with
      | some b =>
        if b = "" then some p.2
        else
          match condLookup condition branches b with
          | some c' =>
            if isCommandB c' then run env selecting f p.2 (.act (.cmd c'))
            else some p.2
          | none => some p.2
      | none => some p.2
    | .param command args rep =>
      executeParameterized env f st command args rep selecting
  | _ + 1, st, .cmds [] => some st
  | f + 1, st, .cmds (c :: rest) =>
    match run env selecting f st (.act (.cmd c)) with
    | some st' => run env selecting f st' (.cmds rest)
    | none => none

/-- Truthiness of the `keymap` variable. -/
def kmTruthy : KmVar → Bool
  | .kmAddr _ => true
  | .kmNum n => n ≠ 0
  | .kmUndef => false

/-- Truthiness of a command value (an empty command name string is falsy). -/
def cmdTruthy : Cmd → Bool
  | .literal s => s ≠ ""
  | _ => true

/-- Truthiness of a binding value, as tested by `keymap[key]`. -/
def avalTruthy : AVal → Bool
  | .cmd c => cmdTruthy c
  | .km _ => true
  | .num n => n ≠ 0
  | .undef => false

/-- Property read `keymap[key]` (yields nothing when the active "keymap" is
a residual number or undefined). -/
def kmLookup (env : Env) (k : KmVar) (key : String) : Option AVal :=
  match k with
  | .kmAddr a => (env.heap.get? a).bind (fun ko => getAssoc ko.binds key)
  | _ => none

/-- The combined test `keymap && keymap[key]` of `handleKey`, returning the
binding when the test passes. -/
def lookupTruthy (env : Env) (k : KmVar) (key : String) : Option AVal :=
  if kmTruthy k then
    match kmLookup env k key with
    | some v => if avalTruthy v then some v else none
    | none => none
  else none

/-- Truthiness of the `lastCommand` variable. -/
def lastCommandTruthy : Option String → Bool
  | none => false
  | some s => s ≠ ""

/-- `handleKey`: push the key onto `keySequence`; in capture mode forward
the key to `lastCommand`; otherwise look the key up in the active keymap and
execute the bound action, clearing `keySequence` if the active keymap is
back at the root afterwards; an unbound key shows a warning naming the whole
pending sequence and resets to the root.  Returns whether `keySequence` is
empty afterwards. -/
def handleKey (env : Env) (fuel : Nat) (st : ExecState) (key : String)
    (selecting capture : Bool) : Option (Bool × ExecState) :=
  let st := { st with keySequence := st.keySequence ++ [key] }
  if capture && lastCommandTruthy st.lastCommand then
    let st := executeVSCommand env st (st.lastCommand.getD "") (.evald (.str key))
    some (st.keySequence.isEmpty, st)
  else
    match lookupTruthy env st.km key with
    | some v =>
      match run env selecting fuel st (.act v) with
      | some st' =>
        let st' :=
          if st'.km = .kmAddr env.rootAddr then { st' with keySequence := [] }
          else st'
        some (st'.keySequence.isEmpty, st')
      | none => none
    | none =>
      let st := { st with
        events := st.events ++ [.warn ("ModalEdit: Undefined key binding: " ++
          String.intercalate " - " st.keySequence)],
        keySequence := [],
        km := .kmAddr env.rootAddr }
      some (st.keySequence.isEmpty, st)

/-- A selection: `anchor`/`active` positions, represented by their document
offsets (the engine converts positions to offsets and back through
`offsetAt`/`positionAt`, which is a bijection). -/
structure Sel where
  anchor : Nat
  active : Nat
deriving DecidableEq

/-- The text editor as far as the search engine observes it: the document
text and the current selections. -/
structure Editor where
  doc : String
  selections : List Sel
deriving DecidableEq

/-- The value of `searchAcceptAfter`: a number or `Number.POSITIVE_INFINITY`. -/
inductive JSNum where
  | fin (n : Int)
  | posInf
deriving DecidableEq

/-- `searchString.length >= searchAcceptAfter`. -/
def jsGe (len : Nat) : JSNum → Bool
  | .posInf => false
  | .fin n => decide (n ≤ (len : Int))

/-- `args.acceptAfter || Number.POSITIVE_INFINITY` (`0` is falsy). -/
def jsOrInf : Option Int → JSNum
  | none => .posInf
  | some n => if n = 0 then .posInf else .fin n

/-- Does `t` occur in `s` at index `i`? -/
def occursAt (s t : List Char) (i : Nat) : Bool :=
  decide ((s.drop i).take t.length = t)

/-- JavaScript `s.indexOf(t, start)`: the smallest occurrence index that is
at least `max(start, 0)` (clamped to the string length), or `-1`. -/
def jsIndexOf (s t : String) (start : Int) : Int :=
  let sc := s.toList
  let tc := t.toList
  let f := min start.toNat sc.length
  match (List.range (sc.length + 1)).find? (fun i => f ≤ i ∧ occursAt sc tc i) with
  | some i => (i : Int)
  | none => -1

/-- JavaScript `s.lastIndexOf(t, start)`: the largest occurrence index that
is at most `min(max(start, 0), length)`, or `-1`. -/
def jsLastIndexOf (s t : String) (start : Int) : Int :=
  let sc := s.toList
  let tc := t.toList
  let pos := min start.toNat sc.length
  match (List.range (pos + 1)).reverse.find? (fun i => occursAt sc tc i) with
  | some i => (i : Int)
  | none => -1

/-- JavaScript `s.toLowerCase()` (ASCII-faithful). -/
def jsToLower (s : String) : String := String.map Char.toLower s

/-- `searchString.slice(0, searchString.length - 1)`. -/
def jsDropLast (s : String) : String := String.mk s.toList.dropLast

/-- The search-related module state of `commands.ts`.  Mode flags, status
bar and cursor styling are host glue outside the model; `hookFired` records
the hook key sequences handed to `typeNormalKeys`, which re-enters the
keymap machinery and is external to the search engine proper. -/
structure SearchState where
  searching : Bool
  searchString : String
  searchStartSelections : List Sel
  searchInfo : Option String
  searchBackwards : Bool
  searchCaseSensitive : Bool
  searchWrapAround : Bool
  searchAcceptAfter : JSNum
  searchSelectTillMatch : Bool
  typeAfterAccept : Option String
  typeBeforeNextMatch : Option String
  typeAfterNextMatch : Option String
  typeBeforePreviousMatch : Option String
  typeAfterPreviousMatch : Option String
  hookFired : List String
deriving DecidableEq

/-- The `SearchArgs` interface (all properties optional). -/
structure SearchArgs where
  backwards : Option Bool
  caseSensitive : Option Bool
  wrapAround : Option Bool
  acceptAfter : Option Int
  selectTillMatch : Option Bool
  typeAfterAccept : Option String
  typeBeforeNextMatch : Option String
  typeAfterNextMatch : Option String
  typeBeforePreviousMatch : Option String
  typeAfterPreviousMatch : Option String
deriving DecidableEq

/-- `{}`: a search invocation with no arguments. -/
def defaultSearchArgs : SearchArgs :=
  ⟨none, none, none, none, none, none, none, none, none, none⟩

/-- Run a hook command string through `typeNormalKeys` if it is truthy
(recorded only; the hook re-enters the key handler, outside this model). -/
def fireHook (st : SearchState) (hook : Option String) : SearchState :=
  match hook with
  | some s => if s = "" then st else { st with hookFired := st.hookFired ++ [s] }
  | none => st

/-- The per-cursor body of `highlightMatches`: find the next (or previous)
occurrence of `target` from the cursor's active position, wrapping around if
configured; on failure leave the selection unchanged and set `searchInfo`;
otherwise select the match (flipping anchor/active when searching backwards,
and keeping the original anchor under `selectTillMatch`). -/
def findMatchSel (docText target : String) (bw wrap till : Bool) (len : Nat)
    (acc : List Sel × Option String) (sel : Sel) : List Sel × Option String :=
  let startOffs : Int := (sel.active : Int)
  let offs : Int :=
    if bw then jsLastIndexOf docText target (startOffs - 1)
    else jsIndexOf docText target startOffs
  if offs < 0 then
    let offs2 : Int :=
      if wrap then
        if bw then jsLastIndexOf docText target (docText.toList.length : Int)
        else jsIndexOf docText target 0
      else offs
    if offs2 < 0 then (acc.1 ++ [sel], some "Pattern not found")
    else
      let info := if bw then "Search hit TOP continuing at BOTTOM"
                  else "Search hit BOTTOM continuing at TOP"
      let start := offs2.toNat
      let stop := offs2.toNat + len
      let p : Nat × Nat := if bw then (start, stop) else (stop, start)
      let anchor := if till then sel.anchor else p.2
      (acc.1 ++ [⟨anchor, p.1⟩], some info)
  else
    let start := offs.toNat
    let stop := offs.toNat + len
    let p : Nat × Nat := if bw then (start, stop) else (stop, start)
    let anchor := if till then sel.anchor else p.2
    (acc.1 ++ [⟨anchor, p.1⟩], acc.2)

/-- `highlightMatches`: an empty search string restores the start
selections; otherwise each selection is replaced by the match found from its
active position (case-folded when case-insensitive).  `searchInfo` is
cleared first and set by the per-cursor searches. -/
def highlightMatches (st : SearchState) (ed : Editor) (sels : List Sel) :
    SearchState × Editor :=
  if st.searchString = "" then
    ({ st with searchInfo := none },
     { ed with selections := st.searchStartSelections })
  else
    let docText := if st.searchCaseSensitive then ed.doc else jsToLower ed.doc
    let target :=
      if st.searchCaseSensitive then st.searchString
      else jsToLower st.searchString
    let r := sels.foldl
      (findMatchSel docText target st.searchBackwards st.searchWrapAround
        st.searchSelectTillMatch st.searchString.length)
      ([], (none : Option String))
    ({ st with searchInfo := r.2 }, { ed with selections := r.1 })

/-- `acceptSearch`: leave search mode and run the `typeAfterAccept` hook if
one was configured. -/
def acceptSearch (st : SearchState) : SearchState :=
  fireHook { st with searching := false } st.typeAfterAccept

/-- Input of the `modaledit.search` command: an argument object starts a new
search, a string is a typed key. -/
inductive SearchInput where
  | args (a : SearchArgs)
  | key (s : String)

/-- The `modaledit.search` command.  A falsy argument (missing, or the empty
string) is replaced by `{}` and starts a new search: selections are
snapshotted into `searchStartSelections`, the parameters are taken from the
arguments with falsy defaults and `acceptAfter` defaulting to positive
infinity.  A newline accepts; any other string is appended to the search
string, matches are recomputed from the start selections, and the search is
auto-accepted once the search string is long enough.  (Mode switching,
`setLastCommand` and status-bar updates are host glue outside the model.) -/
def searchCmd (st : SearchState) (ed : Editor) (input : Option SearchInput) :
    SearchState × Editor :=
  let input' : SearchInput :=
    match input with
    | none => .args defaultSearchArgs
    | some (.args a) => .args a
    | some (.key s) => if s = "" then .args defaultSearchArgs else .key s
  match input' with
  | .args a =>
    ({ st with
        searching := true,
        searchString := "",
        searchStartSelections := ed.selections,
        searchBackwards := a.backwards.getD false,
        searchCaseSensitive := a.caseSensitive.getD false,
        searchWrapAround := a.wrapAround.getD false,
        searchAcceptAfter := jsOrInf a.acceptAfter,
        searchSelectTillMatch := a.selectTillMatch.getD false,
        typeAfterAccept := a.typeAfterAccept,
        typeBeforeNextMatch := a.typeBeforeNextMatch,
        typeAfterNextMatch := a.typeAfterNextMatch,
        typeBeforePreviousMatch := a.typeBeforePreviousMatch,
        typeAfterPreviousMatch := a.typeAfterPreviousMatch }, ed)
  | .key s =>
    if s = "\n" then (acceptSearch st, ed)
    else
      let st := { st with searchString := st.searchString ++ s }
      let r := highlightMatches st ed st.searchStartSelections
      if jsGe r.1.searchString.length r.1.searchAcceptAfter then
        (acceptSearch r.1, r.2)
      else r

/-- `cancelSearch`: when a search is active, leave search mode and restore
the selections recorded when the search began. -/
def cancelSearch (st : SearchState) (ed : Editor) : SearchState × Editor :=
  if st.searching then
    ({ st with searching := false },
     { ed with selections := st.searchStartSelections })
  else (st, ed)

/-- `deleteCharFromSearch`: while searching with a non-empty search string,
drop its last character and recompute the matches from the start
selections. -/
def deleteCharFromSearch (st : SearchState) (ed : Editor) :
    SearchState × Editor :=
  if st.searching ∧ 0 < st.searchString.length then
    let st := { st with searchString := jsDropLast st.searchString }
    highlightMatches st ed st.searchStartSelections
  else (st, ed)

/-- `nextMatch`: with a non-empty (possibly already accepted) search string,
run the before-hook, recompute the matches from the current selections, and
run the after-hook. -/
def nextMatch (st : SearchState) (ed : Editor) : SearchState × Editor :=
  if st.searchString ≠ "" then
    let st := fireHook st st.typeBeforeNextMatch
    let r := highlightMatches st ed ed.selections
    (fireHook r.1 st.typeAfterNextMatch, r.2)
  else (st, ed)

/-- Search-engine operations, for driving whole sessions in the theorems. -/
inductive SearchOp where
  | inp (i : Option SearchInput)
  | del
  | cancel
  | next

/-- Run a list of search operations. -/
def runSearchOps (p : SearchState × Editor) (ops : List SearchOp) :
    SearchState × Editor :=
  ops.foldl
    (fun p op =>
      match op with
      | .inp i => searchCmd p.1 p.2 i
      | .del => deleteCharFromSearch p.1 p.2
      | .cancel => cancelSearch p.1 p.2
      | .next => nextMatch p.1 p.2)
    p

/-- A search state before any search was started. -/
def initSearchState : SearchState :=
  ⟨false, "", [], none, false, false, false, .posInf, false,
   none, none, none, none, none, []⟩

/-- Number of invocations of the host command `name` in an event trace. -/
def countCalls (name : String) : List Event → Nat
  | [] => 0
  | .call n _ :: rest => (if n = name then 1 else 0) + countCalls name rest
  | _ :: rest => countCalls name rest

/-- An execution state at the root keymap with nothing recorded yet. -/
def stZero : ExecState := ⟨.kmAddr 0, none, [], 0, 0, []⟩

/-- Environment whose every `eval` throws and whose every host command
succeeds, with an empty keymap arena. -/
def evalFailEnv : Env := ⟨[], 0, fun _ _ _ => none, fun _ => true⟩

/-- The validated arena of the configuration `{id: 1, "a": 1, "b":
"cursorDown"}`: the binding of `a` resolves to the root keymap itself. -/
def c1ExEnv : Env :=
  ⟨[⟨some 1, none, [("a", .km 0), ("b", .cmd (.literal "cursorDown"))]⟩], 0,
   fun _ _ _ => none, fun _ => true⟩

/-- An arena with a root keymap binding `w` to a distinct nested keymap. -/
def c1WitEnv : Env :=
  ⟨[⟨none, none, [("w", .km 1)]⟩, ⟨some 7, none, []⟩], 0,
   fun _ _ _ => none, fun _ => true⟩

/-- Environment for exercising a numeric repeat expression: the first
`eval` yields the number 3. -/
def c4WitEnv : Env :=
  ⟨[], 0, fun i _ _ => if i = 0 then some (.num 3) else some (.bool false),
   fun _ => true⟩

/-! ## Theorems -/

/-- Claim C9: `lastCommand` is updated exactly by a successful host command
invocation; a rejected invocation leaves it at its previous value, so
capture-mode keystrokes keep being forwarded to the last successfully
executed command. -/
theorem c9_lastCommand_update (env : Env) (st : ExecState) (name : String)
    (arg : ArgVal) :
    (executeVSCommand env st name arg).lastCommand =
      (if env.cmdOracle st.cmdCtr then some name else st.lastCommand) := by
  unfold executeVSCommand
  split <;> rfl

/-- Claim C6: on the document "abcfooxfooy" with one cursor at offset 0, a
forward case-sensitive search for "foo" selects the range from offset 3 to
offset 6 (anchor 3, active 6), and next-match then selects offsets 7 to
10. -/
theorem c6_search_concrete :
    (runSearchOps (initSearchState, ⟨"abcfooxfooy", [⟨0, 0⟩]⟩)
      [.inp (some (.args { defaultSearchArgs with caseSensitive := some true })),
       .inp (some (.key "f")), .inp (some (.key "o")),
       .inp (some (.key "o"))]).2.selections = [⟨3, 6⟩]
    ∧ (runSearchOps
        (runSearchOps (initSearchState, ⟨"abcfooxfooy", [⟨0, 0⟩]⟩)
          [.inp (some (.args { defaultSearchArgs with caseSensitive := some true })),
           .inp (some (.key "f")), .inp (some (.key "o")),
           .inp (some (.key "o"))])
        [.next]).2.selections = [⟨7, 10⟩] := by
  exact ⟨rfl, rfl⟩

/-- Claim C1, counterexample: in the validated configuration
`{id: 1, "a": 1, "b": "cursorDown"}` the key `a` is bound to a nested
keymap (the root keymap itself), yet `handleKey` returns `true` and clears
the pending sequence, where the claim requires `false` with the pending
sequence kept. -/
theorem c1_counterexample :
    vrun 9 ⟨[⟨some 1, none, [("a", .num 1), ("b", .cmd (.literal "cursorDown"))]⟩],
            [], 0, []⟩ (.km 0) =
      some ⟨[⟨some 1, none, [("a", .km 0), ("b", .cmd (.literal "cursorDown"))]⟩],
            [(1, 0)], 0, []⟩
    ∧ lookupTruthy c1ExEnv (.kmAddr 0) "a" = some (.km 0)
    ∧ handleKey c1ExEnv 5 stZero "a" false false = some (true, stZero) := by
  exact ⟨rfl, rfl, rfl⟩

/-- Claim C2, counterexample: validating a keymap whose binding `a` is the
numeric reference 5 with no keymap of id 5 reports one error but leaves the
binding present with its unresolved integer value (the claim requires the
binding to be absent and every reachable leaf to be resolved). -/
theorem c2_counterexample :
    vrun 9 ⟨[⟨none, none, [("a", .num 5)]⟩], [], 0, []⟩ (.km 0) =
      some ⟨[⟨none, none, [("a", .num 5)]⟩], [], 1,
            ["ERROR: Undefined keymap id: 5"]⟩
    ∧ getBind ⟨[⟨none, none, [("a", .num 5)]⟩], [], 1,
            ["ERROR: Undefined keymap id: 5"]⟩ 0 "a" = some (.num 5) := by
  exact ⟨rfl, rfl⟩

/-- Claim C3: validating the pattern `a-c` produces independently lookupable
entries for `a`, `b`, `c` all bound to the same action, and validating
`a,d-f` produces single-character entries for exactly `a`, `d`, `e`, `f`,
all bound to the same action, with no errors. -/
theorem c3_key_range_expansion :
    vrun 9 ⟨[⟨none, none, [("a-c", .cmd (.literal "cmdA"))]⟩], [], 0, []⟩ (.km 0) =
      some ⟨[⟨none, none,
        [("a-c", .cmd (.literal "cmdA")), ("a", .cmd (.literal "cmdA")),
         ("b", .cmd (.literal "cmdA")), ("c", .cmd (.literal "cmdA"))]⟩], [], 0, []⟩
    ∧ vrun 9 ⟨[⟨none, none, [("a,d-f", .cmd (.literal "cmdB"))]⟩], [], 0, []⟩ (.km 0) =
      some ⟨[⟨none, none,
        [("a,d-f", .cmd (.literal "cmdB")), ("a", .cmd (.literal "cmdB")),
         ("d", .cmd (.literal "cmdB")), ("e", .cmd (.literal "cmdB")),
         ("f", .cmd (.literal "cmdB"))]⟩], [], 0, []⟩
    ∧ (List.all
        [("a,d-f", AVal.cmd (.literal "cmdB")), ("a", AVal.cmd (.literal "cmdB")),
         ("d", AVal.cmd (.literal "cmdB")), ("e", AVal.cmd (.literal "cmdB")),
         ("f", AVal.cmd (.literal "cmdB"))]
        (fun p => p.1.length ≠ 1 ||
          (p.1 == "a" || p.1 == "d" || p.1 == "e" || p.1 == "f"))) = true := by
  exact ⟨rfl, rfl, rfl⟩

/-- Claim C5, counterexample: a parameterized command whose args expression
fails to evaluate still invokes the host command, with an undefined
argument (the claim requires the command not to be invoked). -/
theorem c5_counterexample :
    executeParameterized evalFailEnv 5 stZero "paste" (some (.exprArg "bad+"))
        none false =
      some ⟨.kmAddr 0, some "paste", [], 1, 1,
            [.evalError "bad+", .call "paste" (.evald .undef)]⟩
    ∧ countCalls "paste" [.evalError "bad+", .call "paste" (.evald .undef)] = 1 := by
  exact ⟨rfl, rfl⟩

/-- Claim C8, counterexample: with the pre-search selection spanning
offsets 0 to 2 of "abab", typing `b` and cancelling restores the original
non-empty selection, not an empty selection collapsed at the anchor. -/
theorem c8_counterexample :
    (runSearchOps (initSearchState, ⟨"abab", [⟨0, 2⟩]⟩)
      [.inp (some (.args defaultSearchArgs)), .inp (some (.key "b")),
       .cancel]).2.selections = [⟨0, 2⟩]
    ∧ ¬ (Sel.mk 0 2).anchor = (Sel.mk 0 2).active := by
  exact ⟨rfl, by decide⟩

/-- Claim C10, counterexample: starting a search with the non-positive
`acceptAfter` value -1 (which is truthy) auto-accepts already on the first
typed character, so auto-accept does not trigger only for positive values. -/
theorem c10_counterexample :
    ((runSearchOps (initSearchState, ⟨"abab", [⟨0, 0⟩]⟩)
      [.inp (some (.args { defaultSearchArgs with acceptAfter := some (-1) })),
       .inp (some (.key "a"))]).1).searching = false
    ∧ ¬ (0 : Int) < -1 := by
  exact ⟨rfl, by decide⟩

/-- `countCalls` distributes over concatenation. -/
theorem countCalls_append (name : String) (a b : List Event) :
    countCalls name (a ++ b) = countCalls name a + countCalls name b := by
  induction a with
  | nil => simp [countCalls]
  | cons e rest ih => cases e <;> simp [countCalls, ih] <;> omega

/-- A trace without invocation events has no invocations of any command. -/
theorem countCalls_nocalls (name : String) (d : List Event)
    (h : ∀ nm a, Event.call nm a ∈ d → False) : countCalls name d = 0 := by
  induction d with
  | nil => rfl
  | cons e rest ih =>
    have hrest : ∀ nm a, Event.call nm a ∈ rest → False :=
      fun nm a hm => h nm a (List.mem_cons_of_mem _ hm)
    cases e with
    | call nm a => exact absurd (List.mem_cons_self _ _) (fun hm => h nm a hm)
    | cmdError n => simpa [countCalls] using ih hrest
    | evalError s2 => simpa [countCalls] using ih hrest
    | warn m => simpa [countCalls] using ih hrest

theorem executeVSCommand_km (env : Env) (st : ExecState) (name : String)
    (arg : ArgVal) : (executeVSCommand env st name arg).km = st.km := by
  unfold executeVSCommand; split <;> rfl

theorem executeVSCommand_evalCtr (env : Env) (st : ExecState) (name : String)
    (arg : ArgVal) : (executeVSCommand env st name arg).evalCtr = st.evalCtr := by
  unfold executeVSCommand; split <;> rfl

/-- One host invocation appends exactly one `call` event (plus possibly an
error event) to the trace. -/
theorem executeVSCommand_events (env : Env) (st : ExecState) (name : String)
    (arg : ArgVal) :
    ∃ d, (executeVSCommand env st name arg).events = st.events ++ d ∧
      countCalls name d = 1 ∧
      ∀ nm a, Event.call nm a ∈ d → nm = name ∧ a = arg := by
  unfold executeVSCommand; split
  · refine ⟨[.call name arg], rfl, by simp [countCalls], ?_⟩
    intro nm a h
    simp only [List.mem_singleton] at h
    injection h with h1 h2
    exact ⟨h1, h2⟩
  · refine ⟨[.call name arg, .cmdError name], rfl, by simp [countCalls], ?_⟩
    intro nm a h
    simp only [List.mem_cons, List.not_mem_nil, or_false] at h
    rcases h with h | h
    · injection h with h1 h2; exact ⟨h1, h2⟩
    · exact Event.noConfusion h

theorem evalString_val (env : Env) (st : ExecState) (s : String) (sel : Bool) :
    (evalString env st s sel).1 = (env.evalOracle st.evalCtr s sel).getD .undef := by
  cases h : env.evalOracle st.evalCtr s sel <;> simp [evalString, h]

theorem evalString_evalCtr (env : Env) (st : ExecState) (s : String) (sel : Bool) :
    (evalString env st s sel).2.evalCtr = st.evalCtr + 1 := by
  cases h : env.evalOracle st.evalCtr s sel <;> simp [evalString, h]

theorem evalString_km (env : Env) (st : ExecState) (s : String) (sel : Bool) :
    (evalString env st s sel).2.km = st.km := by
  cases h : env.evalOracle st.evalCtr s sel <;> simp [evalString, h]

theorem evalString_cmdCtr (env : Env) (st : ExecState) (s : String) (sel : Bool) :
    (evalString env st s sel).2.cmdCtr = st.cmdCtr := by
  cases h : env.evalOracle st.evalCtr s sel <;> simp [evalString, h]

/-- Evaluating an expression never records an invocation event. -/
theorem evalString_events (env : Env) (st : ExecState) (s : String) (sel : Bool) :
    ∃ d, (evalString env st s sel).2.events = st.events ++ d ∧
      ∀ nm a, Event.call nm a ∈ d → False := by
  cases h : env.evalOracle st.evalCtr s sel
  · exact ⟨[.evalError s], by simp [evalString, h], by simp⟩
  · exact ⟨[], by simp [evalString, h], by simp⟩

theorem execVSTimes_km (env : Env) (name : String) (arg : ArgVal) :
    ∀ (n : Nat) (st : ExecState), (execVSTimes env st name arg n).km = st.km := by
  intro n
  induction n with
  | zero => intro st; rfl
  | succ k ih =>
    intro st
    show (execVSTimes env (executeVSCommand env st name arg) name arg k).km = st.km
    rw [ih, executeVSCommand_km]

/-- The numeric-repeat loop invokes the command exactly `n` times, always
with the same argument. -/
theorem execVSTimes_spec (env : Env) (name : String) (arg : ArgVal) :
    ∀ (n : Nat) (st : ExecState), ∃ d,
      (execVSTimes env st name arg n).events = st.events ++ d ∧
      countCalls name d = n ∧ ∀ a, Event.call name a ∈ d → a = arg := by
  intro n
  induction n with
  | zero => intro st; exact ⟨[], by simp [execVSTimes], rfl, by simp⟩
  | succ k ih =>
    intro st
    obtain ⟨d1, h1, hc1, hm1⟩ := executeVSCommand_events env st name arg
    obtain ⟨d2, h2, hc2, hm2⟩ := ih (executeVSCommand env st name arg)
    refine ⟨d1 ++ d2, ?_, ?_, ?_⟩
    · show (execVSTimes env (executeVSCommand env st name arg) name arg k).events = _
      rw [h2, h1, List.append_assoc]
    · rw [countCalls_append, hc1, hc2]; omega
    · intro a ha
      rcases List.mem_append.mp ha with h | h
      · exact (hm1 name a h).2
      · exact hm2 a h

/-- The do-while loop runs the command once and then keeps re-running it
while the re-evaluated repeat expression is truthy: if the `j`-th
re-evaluation (counting from 0) is the first falsy one, the command is
invoked exactly `j + 1` times, always with the same argument. -/
theorem doWhile_spec (env : Env) (name : String) (arg : ArgVal) (s : String)
    (sel : Bool) :
    ∀ (j fuel : Nat) (st : ExecState), j < fuel →
    (∀ i, i < j → jsTruthy ((env.evalOracle (st.evalCtr + i) s sel).getD .undef) = true) →
    jsTruthy ((env.evalOracle (st.evalCtr + j) s sel).getD .undef) = false →
    ∃ st', doWhile env name arg s sel fuel st = some st' ∧
      ∃ d, st'.events = st.events ++ d ∧ countCalls name d = j + 1 ∧
        ∀ a, Event.call name a ∈ d → a = arg := by
  intro j
  induction j with
  | zero =>
    intro fuel st hf htr hfa
    cases fuel with
    | zero => omega
    | succ f =>
      have hval : (evalString env (executeVSCommand env st name arg) s sel).1 =
          (env.evalOracle st.evalCtr s sel).getD .undef := by
        rw [evalString_val, executeVSCommand_evalCtr]
      have hfalse :
          jsTruthy (evalString env (executeVSCommand env st name arg) s sel).1 = false := by
        rw [hval]; simpa using hfa
      obtain ⟨d1, h1, hc1, hm1⟩ := executeVSCommand_events env st name arg
      obtain ⟨d2, h2, hm2⟩ :=
        evalString_events env (executeVSCommand env st name arg) s sel
      refine ⟨(evalString env (executeVSCommand env st name arg) s sel).2, ?_,
        d1 ++ d2, ?_, ?_, ?_⟩
      · simp [doWhile, hfalse]
      · rw [h2, h1, List.append_assoc]
      · rw [countCalls_append, hc1, countCalls_nocalls name d2 hm2]
      · intro a ha
        rcases List.mem_append.mp ha with h | h
        · exact (hm1 name a h).2
        · exact absurd h (fun hm => hm2 name a hm)
  | succ k ih =>
    intro fuel st hf htr hfa
    cases fuel with
    | zero => omega
    | succ f =>
      have hval : (evalString env (executeVSCommand env st name arg) s sel).1 =
          (env.evalOracle st.evalCtr s sel).getD .undef := by
        rw [evalString_val, executeVSCommand_evalCtr]
      have htrue :
          jsTruthy (evalString env (executeVSCommand env st name arg) s sel).1 = true := by
        rw [hval]
        have := htr 0 (by omega)
        simpa using this
      have h2ctr :
          (evalString env (executeVSCommand env st name arg) s sel).2.evalCtr =
            st.evalCtr + 1 := by
        rw [evalString_evalCtr, executeVSCommand_evalCtr]
      have htr' : ∀ i, i < k → jsTruthy ((env.evalOracle
          ((evalString env (executeVSCommand env st name arg) s sel).2.evalCtr + i)
          s sel).getD .undef) = true := by
        intro i hi
        have e : (evalString env (executeVSCommand env st name arg) s sel).2.evalCtr + i =
            st.evalCtr + (i + 1) := by omega
        rw [e]; exact htr (i + 1) (by omega)
      have hfa' : jsTruthy ((env.evalOracle
          ((evalString env (executeVSCommand env st name arg) s sel).2.evalCtr + k)
          s sel).getD .undef) = false := by
        have e : (evalString env (executeVSCommand env st name arg) s sel).2.evalCtr + k =
            st.evalCtr + (k + 1) := by omega
        rw [e]; exact hfa
      obtain ⟨st', hrun, d3, hd3, hc3, hm3⟩ :=
        ih f (evalString env (executeVSCommand env st name arg) s sel).2
          (by omega) htr' hfa'
      obtain ⟨d1, h1, hc1, hm1⟩ := executeVSCommand_events env st name arg
      obtain ⟨d2, h2, hm2⟩ :=
        evalString_events env (executeVSCommand env st name arg) s sel
      refine ⟨st', ?_, d1 ++ (d2 ++ d3), ?_, ?_, ?_⟩
      · simp only [doWhile, htrue]
        simpa using hrun
      · rw [hd3, h2, h1]
        simp [List.append_assoc]
      · rw [countCalls_append, countCalls_append, hc1,
          countCalls_nocalls name d2 hm2, hc3]
        omega
      · intro a ha
        rcases List.mem_append.mp ha with h | h
        · exact (hm1 name a h).2
        · rcases List.mem_append.mp h with h | h
          · exact absurd h (fun hm => hm2 name a hm)
          · exact hm3 a h

/-- The do-while loop never touches the active keymap. -/
theorem doWhile_km (env : Env) (name : String) (arg : ArgVal) (s : String)
    (sel : Bool) :
    ∀ (fuel : Nat) (st st' : ExecState),
    doWhile env name arg s sel fuel st = some st' → st'.km = st.km := by
  intro fuel
  induction fuel with
  | zero => intro st st' h; simp [doWhile] at h
  | succ f ih =>
    intro st st' h
    simp only [doWhile] at h
    split at h
    · have := ih _ _ h
      rw [this, evalString_km, executeVSCommand_km]
    · simp only [Option.some.injEq] at h
      rw [← h, evalString_km, executeVSCommand_km]

/-- Resolving the repeat property never touches the active keymap. -/
theorem resolveRep_km (env : Env) (st : ExecState) (rep : Option RepSpec)
    (sel : Bool) : (resolveRep env st rep sel).2.km = st.km := by
  unfold resolveRep
  split
  · split
    · rename_i s htr
      rcases heq : evalString env st s sel with ⟨v, st2⟩
      have hk := evalString_km env st s sel
      rw [heq] at hk
      cases v <;> exact hk
    · rfl
    · rfl
  · rfl

/-- The `exec` subroutine never touches the active keymap. -/
theorem execRep_km (env : Env) (fuel : Nat) (command : String) (sel : Bool)
    (rv : RepVal) (st : ExecState) (arg : ArgVal) (st' : ExecState)
    (h : execRep env fuel command sel rv st arg = some st') : st'.km = st.km := by
  cases rv with
  | expr s => exact doWhile_km env command arg s sel fuel st st' h
  | count n =>
    simp only [execRep, Option.some.injEq] at h
    rw [← h, execVSTimes_km]

/-- `executeParameterized` never touches the active keymap. -/
theorem executeParameterized_km (env : Env) (fuel : Nat) (st : ExecState)
    (command : String) (args : Option ArgSpec) (rep : Option RepSpec)
    (sel : Bool) (st' : ExecState)
    (h : executeParameterized env fuel st command args rep sel = some st') :
    st'.km = st.km := by
  unfold executeParameterized at h
  split at h
  · split at h
    · rw [execRep_km _ _ _ _ _ _ _ _ h, evalString_km, resolveRep_km]
    · rw [execRep_km _ _ _ _ _ _ _ _ h, resolveRep_km]
    · rw [execRep_km _ _ _ _ _ _ _ _ h, resolveRep_km]
  · rw [execRep_km _ _ _ _ _ _ _ _ h, resolveRep_km]

/-- Where the active keymap ends up after `execute` and its helpers:
executing an action always first resets to the root, so a command action
ends at the root, a keymap action at that keymap, and the inner command
helpers leave the keymap where it was or at the root. -/
theorem run_km (env : Env) (sel : Bool) :
    ∀ (f : Nat) (st : ExecState) (call : RunCall) (st' : ExecState),
    run env sel f st call = some st' →
    (match call with
     | .act (.cmd _) => st'.km = .kmAddr env.rootAddr
     | .act (.km a) => st'.km = .kmAddr a
     | .act (.num n) => st'.km = .kmNum n
     | .act .undef => st'.km = .kmUndef
     | .cmd1 _ => st'.km = st.km ∨ st'.km = .kmAddr env.rootAddr
     | .cmds _ => st'.km = st.km ∨ st'.km = .kmAddr env.rootAddr) := by
  intro f
  induction f with
  | zero => intro st call st' h; simp [run] at h
  | succ f ih =>
    intro st call st' h
    cases call with
    | act a =>
      cases a with
      | cmd c =>
        simp only [run] at h
        rcases ih _ _ _ h with h1 | h1
        · simpa [setKm] using h1
        · exact h1
      | km ad =>
        simp only [run, Option.some.injEq] at h
        rw [← h]; rfl
      | num n =>
        simp only [run, Option.some.injEq] at h
        rw [← h]; rfl
      | undef =>
        simp only [run, Option.some.injEq] at h
        rw [← h]; rfl
    | cmd1 c =>
      cases c with
      | literal name =>
        simp only [run, Option.some.injEq] at h
        rw [← h]; left; exact executeVSCommand_km env st name .noArg
      | seq cs =>
        simp only [run] at h
        exact ih _ _ _ h
      | cond condition branches =>
        simp only [run] at h
        split at h
        · split at h
          · simp only [Option.some.injEq] at h
            rw [← h]; left; exact evalString_km env st condition sel
          · split at h
            · split at h
              · right; exact ih _ _ _ h
              · simp only [Option.some.injEq] at h
                rw [← h]; left; exact evalString_km env st condition sel
            · simp only [Option.some.injEq] at h
              rw [← h]; left; exact evalString_km env st condition sel
        · simp only [Option.some.injEq] at h
          rw [← h]; left; exact evalString_km env st condition sel
      | param command args rep =>
        simp only [run] at h
        left; exact executeParameterized_km env f st command args rep sel st' h
    | cmds cs =>
      cases cs with
      | nil =>
        simp only [run, Option.some.injEq] at h
        rw [← h]; left; rfl
      | cons c rest =>
        simp only [run] at h
        rcases hrun : run env sel f st (.act (.cmd c)) with _ | stm
        · rw [hrun] at h; simp at h
        · rw [hrun] at h
          have h1 := ih _ _ _ hrun
          have h2 := ih _ _ _ h
          right
          rcases h2 with h2 | h2
          · rw [h2]; exact h1
          · exact h2

/-- Executing a command action always leaves the active keymap at the
root. -/
theorem run_act_cmd_km (env : Env) (sel : Bool) (f : Nat) (st : ExecState)
    (c : Cmd) (st' : ExecState)
    (h : run env sel f st (.act (.cmd c)) = some st') :
    st'.km = .kmAddr env.rootAddr :=
  run_km env sel f st (.act (.cmd c)) st' h

theorem isEmpty_append_singleton {α : Type} (l : List α) (x : α) :
    (l ++ [x]).isEmpty = false := by cases l <;> rfl

/-- Claim C1 (amended): outside capture mode, `handleKey` returns `true`
exactly when the pending sequence was reset to the root.  An unbound key
reports the full pending sequence, resets to the root and returns `true`; a
key bound to a nested keymap other than the root keymap activates it,
keeps the pending sequence and returns `false` — but a key bound to the
root keymap itself clears the pending sequence and returns `true`; a key
bound to a command action executes it, ends at the root with the pending
sequence cleared, and returns `true`. -/
theorem c1_amended (env : Env) (fuel f : Nat) (st : ExecState) (key : String)
    (sel : Bool) :
    (lookupTruthy env st.km key = none →
      handleKey env fuel st key sel false =
        some (true,
          { st with
            keySequence := [],
            km := .kmAddr env.rootAddr,
            events := st.events ++ [.warn ("ModalEdit: Undefined key binding: " ++
              String.intercalate " - " (st.keySequence ++ [key]))] }))
    ∧ (∀ B, lookupTruthy env st.km key = some (.km B) → B ≠ env.rootAddr →
        handleKey env (f + 1) st key sel false =
          some (false, { st with keySequence := st.keySequence ++ [key],
                                 km := .kmAddr B }))
    ∧ (∀ B, lookupTruthy env st.km key = some (.km B) → B = env.rootAddr →
        handleKey env (f + 1) st key sel false =
          some (true, { st with keySequence := [], km := .kmAddr env.rootAddr }))
    ∧ (∀ c st1, lookupTruthy env st.km key = some (.cmd c) →
        run env sel fuel { st with keySequence := st.keySequence ++ [key] }
            (.act (.cmd c)) = some st1 →
        handleKey env fuel st key sel false =
          some (true, { st1 with keySequence := [] })
        ∧ st1.km = .kmAddr env.rootAddr) := by
  refine ⟨?_, ?_, ?_, ?_⟩
  · intro h
    simp [handleKey, h]
  · intro B h hne
    simp only [handleKey, Bool.false_and, Bool.if_false_left]
    simp only [h]
    simp only [run, setKm]
    have : ¬ (KmVar.kmAddr B = KmVar.kmAddr env.rootAddr) := by
      intro hc; exact hne (KmVar.kmAddr.inj hc)
    simp [this, isEmpty_append_singleton]
  · intro B h heq
    subst heq
    simp only [handleKey, Bool.false_and, Bool.if_false_left]
    simp only [h]
    simp only [run, setKm]
    simp
  · intro c st1 h hrun
    have hkm := run_act_cmd_km env sel fuel _ c st1 hrun
    constructor
    · simp only [handleKey, Bool.false_and, Bool.if_false_left]
      simp only [h]
      simp only [hrun]
      simp [hkm]
    · exact hkm

/-- Witness for C1 at a concrete input: pressing `w`, bound to the nested
keymap at address 1 (not the root), activates it, keeps the pending
sequence and returns `false`. -/
theorem c1_amended_witness :
    handleKey c1WitEnv 3 stZero "w" false false =
      some (false, { stZero with keySequence := ["w"], km := .kmAddr 1 }) := by
  have h := (c1_amended c1WitEnv 3 2 stZero "w" false).2.1 1 rfl (by decide)
  simpa using h

/-- Claim C4: a parameterized command whose repeat expression evaluates to a
number N runs the command exactly `max 1 N` times with the same
once-evaluated arguments; a non-numeric result makes the repeat expression
a post-condition of a do-while loop, so with the `j`-th re-evaluation the
first falsy one the command runs `j + 1` times (at least once in every
case); a literal numeric repeat M runs the command `max 1 M` times. -/
theorem c4_repeat_semantics (env : Env) (st : ExecState) (fuel : Nat)
    (command rs as : String) (t : Nat) (sel : Bool) (v : JSVal)
    (hrs : rs ≠ "") (has : as ≠ "")
    (hev : env.evalOracle st.evalCtr rs sel = some v) :
    (∀ N : Int, v = .num N → ∃ st',
        executeParameterized env fuel st command (some (.exprArg as))
          (some (.expr rs)) sel = some st' ∧
        ∃ d, st'.events = st.events ++ d ∧
          countCalls command d = (max 1 N).toNat ∧
          ∀ a, Event.call command a ∈ d →
            a = .evald ((env.evalOracle (st.evalCtr + 1) as sel).getD .undef))
    ∧ ((∀ N : Int, v ≠ .num N) → ∀ j : Nat, j < fuel →
        (∀ i, i < j →
          jsTruthy ((env.evalOracle (st.evalCtr + 2 + i) rs sel).getD .undef) = true) →
        jsTruthy ((env.evalOracle (st.evalCtr + 2 + j) rs sel).getD .undef) = false →
        ∃ st', executeParameterized env fuel st command (some (.exprArg as))
          (some (.expr rs)) sel = some st' ∧
        ∃ d, st'.events = st.events ++ d ∧
          countCalls command d = j + 1 ∧
          ∀ a, Event.call command a ∈ d →
            a = .evald ((env.evalOracle (st.evalCtr + 1) as sel).getD .undef))
    ∧ (∀ M : Int, ∃ st',
        executeParameterized env fuel st command (some (.objArg t))
          (some (.num M)) sel = some st' ∧
        ∃ d, st'.events = st.events ++ d ∧
          countCalls command d = (max 1 M).toNat ∧
          ∀ a, Event.call command a ∈ d → a = .objLit t) := by
  refine ⟨?_, ?_, ?_⟩
  · intro N hN
    subst hN
    have hrr : resolveRep env st (some (.expr rs)) sel =
        (.count (max 1 N), { st with evalCtr := st.evalCtr + 1 }) := by
      simp [resolveRep, repTruthy, hrs, evalString, hev]
    have hep : executeParameterized env fuel st command (some (.exprArg as))
        (some (.expr rs)) sel =
        some (execVSTimes env
          (evalString env { st with evalCtr := st.evalCtr + 1 } as sel).2 command
          (.evald (evalString env { st with evalCtr := st.evalCtr + 1 } as sel).1)
          (max 1 N).toNat) := by
      simp [executeParameterized, hrr, argsTruthy, has, execRep]
    obtain ⟨d2, h2, hm2⟩ :=
      evalString_events env { st with evalCtr := st.evalCtr + 1 } as sel
    obtain ⟨d3, h3, hc3, hm3⟩ := execVSTimes_spec env command
      (.evald (evalString env { st with evalCtr := st.evalCtr + 1 } as sel).1)
      (max 1 N).toNat
      (evalString env { st with evalCtr := st.evalCtr + 1 } as sel).2
    have hv : (evalString env { st with evalCtr := st.evalCtr + 1 } as sel).1 =
        (env.evalOracle (st.evalCtr + 1) as sel).getD .undef := by
      rw [evalString_val]
    refine ⟨_, hep, d2 ++ d3, ?_, ?_, ?_⟩
    · rw [h3, h2, List.append_assoc]
    · rw [countCalls_append, countCalls_nocalls command d2 hm2, hc3]; omega
    · intro a ha
      rcases List.mem_append.mp ha with h | h
      · exact absurd h (fun hm => hm2 command a hm)
      · rw [← hv]; exact hm3 a h
  · intro hNN j hj htr hfa
    have hrr : resolveRep env st (some (.expr rs)) sel =
        (.expr rs, { st with evalCtr := st.evalCtr + 1 }) := by
      cases v with
      | num n => exact absurd rfl (hNN n)
      | str s => simp [resolveRep, repTruthy, hrs, evalString, hev]
      | bool b => simp [resolveRep, repTruthy, hrs, evalString, hev]
      | undef => simp [resolveRep, repTruthy, hrs, evalString, hev]
    have hep : executeParameterized env fuel st command (some (.exprArg as))
        (some (.expr rs)) sel =
        doWhile env command
          (.evald (evalString env { st with evalCtr := st.evalCtr + 1 } as sel).1)
          rs sel fuel
          (evalString env { st with evalCtr := st.evalCtr + 1 } as sel).2 := by
      simp [executeParameterized, hrr, argsTruthy, has, execRep]
    have hpc : (evalString env { st with evalCtr := st.evalCtr + 1 } as sel).2.evalCtr =
        st.evalCtr + 2 := by
      rw [evalString_evalCtr]
    obtain ⟨st', hdw, d3, hd3, hc3, hm3⟩ := doWhile_spec env command
      (.evald (evalString env { st with evalCtr := st.evalCtr + 1 } as sel).1)
      rs sel j fuel
      (evalString env { st with evalCtr := st.evalCtr + 1 } as sel).2 hj
      (by
        intro i hi
        have e : (evalString env { st with evalCtr := st.evalCtr + 1 } as sel).2.evalCtr + i =
            st.evalCtr + 2 + i := by omega
        rw [e]; exact htr i hi)
      (by
        have e : (evalString env { st with evalCtr := st.evalCtr + 1 } as sel).2.evalCtr + j =
            st.evalCtr + 2 + j := by omega
        rw [e]; exact hfa)
    obtain ⟨d2, h2, hm2⟩ :=
      evalString_events env { st with evalCtr := st.evalCtr + 1 } as sel
    have hv : (evalString env { st with evalCtr := st.evalCtr + 1 } as sel).1 =
        (env.evalOracle (st.evalCtr + 1) as sel).getD .undef := by
      rw [evalString_val]
    refine ⟨st', by rw [hep]; exact hdw, d2 ++ d3, ?_, ?_, ?_⟩
    · rw [hd3, h2, List.append_assoc]
    · rw [countCalls_append, countCalls_nocalls command d2 hm2, hc3]; omega
    · intro a ha
      rcases List.mem_append.mp ha with h | h
      · exact absurd h (fun hm => hm2 command a hm)
      · rw [← hv]; exact hm3 a h
  · intro M
    by_cases hM : M = 0
    · subst hM
      have hep : executeParameterized env fuel st command (some (.objArg t))
          (some (.num 0)) sel =
          some (execVSTimes env st command (.objLit t) 1) := by
        simp [executeParameterized, resolveRep, repTruthy, argsTruthy, execRep]
      obtain ⟨d3, h3, hc3, hm3⟩ := execVSTimes_spec env command (.objLit t) 1 st
      exact ⟨_, hep, d3, h3, by rw [hc3]; rfl, hm3⟩
    · have hep : executeParameterized env fuel st command (some (.objArg t))
          (some (.num M)) sel =
          some (execVSTimes env st command (.objLit t) (max 1 M).toNat) := by
        simp [executeParameterized, resolveRep, repTruthy, hM, argsTruthy, execRep]
      obtain ⟨d3, h3, hc3, hm3⟩ :=
        execVSTimes_spec env command (.objLit t) (max 1 M).toNat st
      exact ⟨_, hep, d3, h3, hc3, hm3⟩

/-- Witness for C4 at a concrete input: the repeat expression evaluates to
3, so the command is invoked exactly `max 1 3 = 3` times with the same
once-evaluated argument. -/
theorem c4_repeat_semantics_witness :
    ∃ st', executeParameterized c4WitEnv 9 stZero "type" (some (.exprArg "args"))
        (some (.expr "3")) false = some st' ∧
      ∃ d, st'.events = stZero.events ++ d ∧
        countCalls "type" d = (max 1 (3 : Int)).toNat ∧
        ∀ a, Event.call "type" a ∈ d →
          a = .evald ((c4WitEnv.evalOracle (stZero.evalCtr + 1) "args" false).getD .undef) :=
  (c4_repeat_semantics c4WitEnv stZero 9 "type" "3" "args" 0 false (.num 3)
    (by decide) (by decide) rfl).1 3 rfl

/-- Claim C5 (amended): a failing expression evaluation is reported and a
Conditional whose condition fails takes no branch; but a Parameterized
command whose args expression fails is still invoked — once, with an
undefined argument. -/
theorem c5_amended (env : Env) (st : ExecState) (f : Nat)
    (condition : String) (branches : List (String × Cmd)) (cmd as : String)
    (sel : Bool)
    (hcond : env.evalOracle st.evalCtr condition sel = none)
    (has : as ≠ "") (hcmd : env.cmdOracle st.cmdCtr = true) :
    run env sel (f + 1) st (.cmd1 (.cond condition branches)) =
      some { st with evalCtr := st.evalCtr + 1,
                     events := st.events ++ [.evalError condition] }
    ∧ (env.evalOracle st.evalCtr as sel = none →
        executeParameterized env f st cmd (some (.exprArg as)) none sel =
          some { st with evalCtr := st.evalCtr + 1,
                         cmdCtr := st.cmdCtr + 1,
                         lastCommand := some cmd,
                         events := st.events ++
                           [.evalError as, .call cmd (.evald .undef)] }) := by
  constructor
  · simp [run, evalString, hcond, condBranchKey, jsonStringify]
  · intro h2
    simp [executeParameterized, resolveRep, repTruthy, argsTruthy, has, execRep,
      execVSTimes, evalString, h2, executeVSCommand, hcmd]

/-- Witness for C5 at a concrete input. -/
theorem c5_amended_witness :
    executeParameterized evalFailEnv 4 stZero "paste" (some (.exprArg "bad")) none false =
      some { stZero with evalCtr := stZero.evalCtr + 1,
                         cmdCtr := stZero.cmdCtr + 1,
                         lastCommand := some "paste",
                         events := stZero.events ++
                           [.evalError "bad", .call "paste" (.evald .undef)] } :=
  (c5_amended evalFailEnv stZero 4 "cnd" [] "paste" "bad" false rfl
    (by decide) rfl).2 rfl

/-- Claim C2 (amended): a binding whose numeric target refers to an
undefined keymap id is reported as an error, but the binding is left in
place holding its unresolved integer value, so the validated structure can
retain residual integer references. -/
theorem c2_amended (oid : Option Int) (oh : Option String) (k : String)
    (n : Int) (e0 : Nat) (l0 : List String) (f : Nat)
    (hk : k.length = 1) (hid : oid ≠ some n) :
    vrun (f + 1 + 1 + 1) ⟨[⟨oid, oh, [(k, .num n)]⟩], [], e0, l0⟩ (.km 0) =
      some ⟨[⟨oid, oh, [(k, .num n)]⟩],
            (match oid with | some i => [(i, 0)] | none => []),
            e0 + 1,
            l0 ++ ["ERROR: Undefined keymap id: " ++ toString n]⟩ := by
  have hkl : k.data.length = 1 := hk
  have hmre : matchKeyRE k = false := by
    cases hkc : k.data with
    | nil => simp [matchKeyRE, String.toList, hkc]
    | cons c0 rest =>
      cases rest with
      | nil => simp [matchKeyRE, String.toList, hkc]
      | cons c1 r2 => rw [hkc] at hkl; simp at hkl
  rcases oid with _ | i
  · simp [vrun, getBind, getAssoc, setAssoc, vError, hmre, hk]
    rw [← String.append_assoc]
    exact rfl
  · have hin : ¬ (i = n) := fun h => hid (by rw [h])
    simp [vrun, getBind, getAssoc, setAssoc, vError, hmre, hk, hin]
    rw [← String.append_assoc]
    exact rfl

/-- Witness for C2 at a concrete input: id 5 is undefined, one error is
reported, the binding keeps the integer 5. -/
theorem c2_amended_witness :
    vrun 3 ⟨[⟨none, none, [("a", .num 5)]⟩], [], 0, []⟩ (.km 0) =
      some ⟨[⟨none, none, [("a", .num 5)]⟩], [], 1,
            ["ERROR: Undefined keymap id: " ++ toString (5 : Int)]⟩ :=
  c2_amended none none "a" 5 0 [] 0 rfl (by decide)

theorem highlightMatches_searching (st : SearchState) (ed : Editor)
    (sels : List Sel) : (highlightMatches st ed sels).1.searching = st.searching := by
  unfold highlightMatches; split <;> rfl

theorem highlightMatches_searchString (st : SearchState) (ed : Editor)
    (sels : List Sel) :
    (highlightMatches st ed sels).1.searchString = st.searchString := by
  unfold highlightMatches; split <;> rfl

theorem highlightMatches_startSels (st : SearchState) (ed : Editor)
    (sels : List Sel) :
    (highlightMatches st ed sels).1.searchStartSelections =
      st.searchStartSelections := by
  unfold highlightMatches; split <;> rfl

theorem highlightMatches_acceptAfter (st : SearchState) (ed : Editor)
    (sels : List Sel) :
    (highlightMatches st ed sels).1.searchAcceptAfter = st.searchAcceptAfter := by
  unfold highlightMatches; split <;> rfl

theorem highlightMatches_doc (st : SearchState) (ed : Editor)
    (sels : List Sel) : (highlightMatches st ed sels).2.doc = ed.doc := by
  unfold highlightMatches; split <;> rfl

/-- The empty search string restores the recorded start selections. -/
theorem highlightMatches_empty (st : SearchState) (ed : Editor)
    (sels : List Sel) (h : st.searchString = "") :
    (highlightMatches st ed sels).2.selections = st.searchStartSelections := by
  unfold highlightMatches
  rw [if_pos h]

theorem fireHook_fields (st : SearchState) (h : Option String) :
    (fireHook st h).searching = st.searching ∧
    (fireHook st h).searchString = st.searchString ∧
    (fireHook st h).searchStartSelections = st.searchStartSelections ∧
    (fireHook st h).searchAcceptAfter = st.searchAcceptAfter := by
  cases h with
  | none => exact ⟨rfl, rfl, rfl, rfl⟩
  | some s => by_cases hs : s = "" <;> simp [fireHook, hs]

theorem acceptSearch_fields (st : SearchState) :
    (acceptSearch st).searching = false ∧
    (acceptSearch st).searchString = st.searchString ∧
    (acceptSearch st).searchStartSelections = st.searchStartSelections ∧
    (acceptSearch st).searchAcceptAfter = st.searchAcceptAfter := by
  obtain ⟨h1, h2, h3, h4⟩ :=
    fireHook_fields { st with searching := false } st.typeAfterAccept
  exact ⟨h1, h2, h3, h4⟩

/-- One typed search character: the search string is extended, the start
selections and accept threshold are unchanged, the document is untouched,
and search mode ends exactly when the new length meets the threshold. -/
theorem searchCmd_key_fields (st : SearchState) (ed : Editor) (c : String)
    (hc1 : c ≠ "") (hc2 : c ≠ "\n") :
    (searchCmd st ed (some (.key c))).1.searching =
      (if jsGe (st.searchString ++ c).length st.searchAcceptAfter then false
       else st.searching) ∧
    (searchCmd st ed (some (.key c))).1.searchString = st.searchString ++ c ∧
    (searchCmd st ed (some (.key c))).1.searchStartSelections =
      st.searchStartSelections ∧
    (searchCmd st ed (some (.key c))).1.searchAcceptAfter =
      st.searchAcceptAfter ∧
    (searchCmd st ed (some (.key c))).2.doc = ed.doc := by
  have heq : searchCmd st ed (some (.key c)) =
      (if jsGe (highlightMatches { st with searchString := st.searchString ++ c }
            ed st.searchStartSelections).1.searchString.length
          (highlightMatches { st with searchString := st.searchString ++ c }
            ed st.searchStartSelections).1.searchAcceptAfter then
        (acceptSearch (highlightMatches
            { st with searchString := st.searchString ++ c }
            ed st.searchStartSelections).1,
         (highlightMatches { st with searchString := st.searchString ++ c }
            ed st.searchStartSelections).2)
       else highlightMatches { st with searchString := st.searchString ++ c }
            ed st.searchStartSelections) := by
    simp [searchCmd, hc1, hc2]
  have hss : (highlightMatches { st with searchString := st.searchString ++ c }
      ed st.searchStartSelections).1.searchString = st.searchString ++ c := by
    rw [highlightMatches_searchString]
  have hac : (highlightMatches { st with searchString := st.searchString ++ c }
      ed st.searchStartSelections).1.searchAcceptAfter = st.searchAcceptAfter := by
    rw [highlightMatches_acceptAfter]
  have hsr : (highlightMatches { st with searchString := st.searchString ++ c }
      ed st.searchStartSelections).1.searching = st.searching := by
    rw [highlightMatches_searching]
  have hst : (highlightMatches { st with searchString := st.searchString ++ c }
      ed st.searchStartSelections).1.searchStartSelections =
      st.searchStartSelections := by
    rw [highlightMatches_startSels]
  have hdc : (highlightMatches { st with searchString := st.searchString ++ c }
      ed st.searchStartSelections).2.doc = ed.doc := by
    rw [highlightMatches_doc]
  rw [heq]
  by_cases hge : jsGe (st.searchString ++ c).length st.searchAcceptAfter = true
  · rw [if_pos (by rw [hss, hac]; exact hge)]
    obtain ⟨a1, a2, a3, a4⟩ := acceptSearch_fields
      (highlightMatches { st with searchString := st.searchString ++ c }
        ed st.searchStartSelections).1
    refine ⟨?_, ?_, ?_, ?_, hdc⟩
    · rw [if_pos hge]; exact a1
    · rw [a2, hss]
    · rw [a3, hst]
    · rw [a4, hac]
  · rw [if_neg (fun hcon => hge (by rw [hss, hac] at hcon; exact hcon))]
    refine ⟨?_, hss, hst, hac, hdc⟩
    · rw [if_neg hge]; exact hsr

theorem jsDropLast_length (s : String) :
    (jsDropLast s).length = s.length - 1 := by
  cases s with
  | mk data =>
    show data.dropLast.length = data.length - 1
    exact List.length_dropLast data

theorem length_zero_eq_empty (s : String) (h : s.length = 0) : s = "" := by
  cases s with
  | mk data =>
    cases data with
    | nil => rfl
    | cons c cs => simp [String.length] at h

/-- One delete keystroke mid-search: the search string shrinks by its last
character and the recorded start selections, search mode and document are
unchanged. -/
theorem deleteChar_fields (st : SearchState) (ed : Editor)
    (hs : st.searching = true) (hlen : 0 < st.searchString.length) :
    (deleteCharFromSearch st ed).1.searching = true ∧
    (deleteCharFromSearch st ed).1.searchString = jsDropLast st.searchString ∧
    (deleteCharFromSearch st ed).1.searchStartSelections =
      st.searchStartSelections ∧
    (deleteCharFromSearch st ed).2.doc = ed.doc := by
  unfold deleteCharFromSearch
  rw [if_pos ⟨hs, hlen⟩]
  refine ⟨?_, ?_, ?_, ?_⟩
  · rw [highlightMatches_searching]; exact hs
  · rw [highlightMatches_searchString]
  · rw [highlightMatches_startSels]
  · rw [highlightMatches_doc]

/-- Deleting the last remaining query character restores the recorded start
selections. -/
theorem deleteChar_toEmpty (st : SearchState) (ed : Editor)
    (hs : st.searching = true) (hlen : st.searchString.length = 1) :
    (deleteCharFromSearch st ed).2.selections = st.searchStartSelections := by
  unfold deleteCharFromSearch
  rw [if_pos ⟨hs, by omega⟩]
  have he : jsDropLast st.searchString = "" :=
    length_zero_eq_empty _ (by rw [jsDropLast_length, hlen])
  rw [highlightMatches_empty _ _ _ (by exact he)]

/-- `runSearchOps` composes over concatenation of operation lists. -/
theorem runSearchOps_append (p : SearchState × Editor)
    (l1 l2 : List SearchOp) :
    runSearchOps p (l1 ++ l2) = runSearchOps (runSearchOps p l1) l2 := by
  simp [runSearchOps, List.foldl_append]

/-- One typed character during a session that cannot auto-accept yet: search
stays active, the search string grows by one, anchors and threshold are
unchanged. -/
theorem typeStep_inv (st : SearchState) (ed : Editor) (c : String) (A : JSNum)
    (hc1 : c ≠ "") (hc2 : c ≠ "\n") (hclen : c.length = 1)
    (hs : st.searching = true) (hacc : st.searchAcceptAfter = A)
    (hge : ∀ L : Nat, L ≤ 3 → jsGe L A = false)
    (hlen : st.searchString.length ≤ 2) :
    (searchCmd st ed (some (.key c))).1.searching = true ∧
    (searchCmd st ed (some (.key c))).1.searchString.length =
      st.searchString.length + 1 ∧
    (searchCmd st ed (some (.key c))).1.searchStartSelections =
      st.searchStartSelections ∧
    (searchCmd st ed (some (.key c))).1.searchAcceptAfter = A := by
  obtain ⟨f1, f2, f3, f4, f5⟩ := searchCmd_key_fields st ed c hc1 hc2
  have hl : (st.searchString ++ c).length = st.searchString.length + 1 := by
    rw [String.length_append, hclen]
  have hgg : jsGe (st.searchString ++ c).length st.searchAcceptAfter = false := by
    rw [hl, hacc]
    exact hge _ (by omega)
  refine ⟨?_, ?_, f3, ?_⟩
  · rw [f1, hgg]; simp [hs]
  · rw [f2, hl]
  · rw [f4, hacc]

/-- One delete keystroke during an active search: search stays active,
anchors unchanged, search string one shorter. -/
theorem delStep_inv (st : SearchState) (ed : Editor)
    (hs : st.searching = true) (hlen : 0 < st.searchString.length) :
    (deleteCharFromSearch st ed).1.searching = true ∧
    (deleteCharFromSearch st ed).1.searchStartSelections =
      st.searchStartSelections ∧
    (deleteCharFromSearch st ed).1.searchString.length =
      st.searchString.length - 1 := by
  obtain ⟨d1, d2, d3, d4⟩ := deleteChar_fields st ed hs hlen
  exact ⟨d1, d3, by rw [d2, jsDropLast_length]⟩

/-- Claim C7: for any document, any starting cursors and any search whose
accept-after threshold cannot fire within three characters, typing the
query "foo" and then deleting all three characters with delete-char
restores every cursor's selection to exactly its pre-search value, because
deletion recomputes from the recorded start selections. -/
theorem c7_delete_roundtrip (doc : String) (sels : List Sel)
    (st0 : SearchState) (a : SearchArgs)
    (hA : jsOrInf a.acceptAfter = .posInf ∨
          ∃ n : Int, jsOrInf a.acceptAfter = .fin n ∧ 3 < n) :
    (runSearchOps (st0, ⟨doc, sels⟩)
      [.inp (some (.args a)), .inp (some (.key "f")), .inp (some (.key "o")),
       .inp (some (.key "o")), .del, .del, .del]).2.selections = sels := by
  have hge : ∀ L : Nat, L ≤ 3 → jsGe L (jsOrInf a.acceptAfter) = false := by
    intro L hL
    rcases hA with h | ⟨n, h, hn⟩
    · rw [h]; rfl
    · rw [h]; simp [jsGe]; omega
  have l1 : (searchCmd st0 ⟨doc, sels⟩ (some (.args a))).1.searchString.length = 0 := rfl
  obtain ⟨s2a, s2b, s2c, s2d⟩ := typeStep_inv (searchCmd st0 ⟨doc, sels⟩ (some (.args a))).1 (searchCmd st0 ⟨doc, sels⟩ (some (.args a))).2 "f"
    (jsOrInf a.acceptAfter) (by decide) (by decide) rfl rfl rfl hge
    (by rw [l1]; omega)
  have l2 : (searchCmd (searchCmd st0 ⟨doc, sels⟩ (some (.args a))).1 (searchCmd st0 ⟨doc, sels⟩ (some (.args a))).2 (some (.key "f"))).1.searchString.length = 1 := by rw [s2b, l1]
  obtain ⟨s3a, s3b, s3c, s3d⟩ := typeStep_inv (searchCmd (searchCmd st0 ⟨doc, sels⟩ (some (.args a))).1 (searchCmd st0 ⟨doc, sels⟩ (some (.args a))).2 (some (.key "f"))).1 (searchCmd (searchCmd st0 ⟨doc, sels⟩ (some (.args a))).1 (searchCmd st0 ⟨doc, sels⟩ (some (.args a))).2 (some (.key "f"))).2 "o"
    (jsOrInf a.acceptAfter) (by decide) (by decide) rfl s2a s2d hge
    (by rw [l2]; omega)
  have l3 : (searchCmd (searchCmd (searchCmd st0 ⟨doc, sels⟩ (some (.args a))).1 (searchCmd st0 ⟨doc, sels⟩ (some (.args a))).2 (some (.key "f"))).1 (searchCmd (searchCmd st0 ⟨doc, sels⟩ (some (.args a))).1 (searchCmd st0 ⟨doc, sels⟩ (some (.args a))).2 (some (.key "f"))).2 (some (.key "o"))).1.searchString.length = 2 := by rw [s3b, l2]
  obtain ⟨s4a, s4b, s4c, s4d⟩ := typeStep_inv (searchCmd (searchCmd (searchCmd st0 ⟨doc, sels⟩ (some (.args a))).1 (searchCmd st0 ⟨doc, sels⟩ (some (.args a))).2 (some (.key "f"))).1 (searchCmd (searchCmd st0 ⟨doc, sels⟩ (some (.args a))).1 (searchCmd st0 ⟨doc, sels⟩ (some (.args a))).2 (some (.key "f"))).2 (some (.key "o"))).1 (searchCmd (searchCmd (searchCmd st0 ⟨doc, sels⟩ (some (.args a))).1 (searchCmd st0 ⟨doc, sels⟩ (some (.args a))).2 (some (.key "f"))).1 (searchCmd (searchCmd st0 ⟨doc, sels⟩ (some (.args a))).1 (searchCmd st0 ⟨doc, sels⟩ (some (.args a))).2 (some (.key "f"))).2 (some (.key "o"))).2 "o"
    (jsOrInf a.acceptAfter) (by decide) (by decide) rfl s3a s3d hge
    (by rw [l3])
  have l4 : (searchCmd (searchCmd (searchCmd (searchCmd st0 ⟨doc, sels⟩ (some (.args a))).1 (searchCmd st0 ⟨doc, sels⟩ (some (.args a))).2 (some (.key "f"))).1 (searchCmd (searchCmd st0 ⟨doc, sels⟩ (some (.args a))).1 (searchCmd st0 ⟨doc, sels⟩ (some (.args a))).2 (some (.key "f"))).2 (some (.key "o"))).1 (searchCmd (searchCmd (searchCmd st0 ⟨doc, sels⟩ (some (.args a))).1 (searchCmd st0 ⟨doc, sels⟩ (some (.args a))).2 (some (.key "f"))).1 (searchCmd (searchCmd st0 ⟨doc, sels⟩ (some (.args a))).1 (searchCmd st0 ⟨doc, sels⟩ (some (.args a))).2 (some (.key "f"))).2 (some (.key "o"))).2 (some (.key "o"))).1.searchString.length = 3 := by rw [s4b, l3]
  obtain ⟨d1a, d1b, d1c⟩ := delStep_inv (searchCmd (searchCmd (searchCmd (searchCmd st0 ⟨doc, sels⟩ (some (.args a))).1 (searchCmd st0 ⟨doc, sels⟩ (some (.args a))).2 (some (.key "f"))).1 (searchCmd (searchCmd st0 ⟨doc, sels⟩ (some (.args a))).1 (searchCmd st0 ⟨doc, sels⟩ (some (.args a))).2 (some (.key "f"))).2 (some (.key "o"))).1 (searchCmd (searchCmd (searchCmd st0 ⟨doc, sels⟩ (some (.args a))).1 (searchCmd st0 ⟨doc, sels⟩ (some (.args a))).2 (some (.key "f"))).1 (searchCmd (searchCmd st0 ⟨doc, sels⟩ (some (.args a))).1 (searchCmd st0 ⟨doc, sels⟩ (some (.args a))).2 (some (.key "f"))).2 (some (.key "o"))).2 (some (.key "o"))).1 (searchCmd (searchCmd (searchCmd (searchCmd st0 ⟨doc, sels⟩ (some (.args a))).1 (searchCmd st0 ⟨doc, sels⟩ (some (.args a))).2 (some (.key "f"))).1 (searchCmd (searchCmd st0 ⟨doc, sels⟩ (some (.args a))).1 (searchCmd st0 ⟨doc, sels⟩ (some (.args a))).2 (some (.key "f"))).2 (some (.key "o"))).1 (searchCmd (searchCmd (searchCmd st0 ⟨doc, sels⟩ (some (.args a))).1 (searchCmd st0 ⟨doc, sels⟩ (some (.args a))).2 (some (.key "f"))).1 (searchCmd (searchCmd st0 ⟨doc, sels⟩ (some (.args a))).1 (searchCmd st0 ⟨doc, sels⟩ (some (.args a))).2 (some (.key "f"))).2 (some (.key "o"))).2 (some (.key "o"))).2 s4a (by rw [l4]; omega)
  have m5 : (deleteCharFromSearch (searchCmd (searchCmd (searchCmd (searchCmd st0 ⟨doc, sels⟩ (some (.args a))).1 (searchCmd st0 ⟨doc, sels⟩ (some (.args a))).2 (some (.key "f"))).1 (searchCmd (searchCmd st0 ⟨doc, sels⟩ (some (.args a))).1 (searchCmd st0 ⟨doc, sels⟩ (some (.args a))).2 (some (.key "f"))).2 (some (.key "o"))).1 (searchCmd (searchCmd (searchCmd st0 ⟨doc, sels⟩ (some (.args a))).1 (searchCmd st0 ⟨doc, sels⟩ (some (.args a))).2 (some (.key "f"))).1 (searchCmd (searchCmd st0 ⟨doc, sels⟩ (some (.args a))).1 (searchCmd st0 ⟨doc, sels⟩ (some (.args a))).2 (some (.key "f"))).2 (some (.key "o"))).2 (some (.key "o"))).1 (searchCmd (searchCmd (searchCmd (searchCmd st0 ⟨doc, sels⟩ (some (.args a))).1 (searchCmd st0 ⟨doc, sels⟩ (some (.args a))).2 (some (.key "f"))).1 (searchCmd (searchCmd st0 ⟨doc, sels⟩ (some (.args a))).1 (searchCmd st0 ⟨doc, sels⟩ (some (.args a))).2 (some (.key "f"))).2 (some (.key "o"))).1 (searchCmd (searchCmd (searchCmd st0 ⟨doc, sels⟩ (some (.args a))).1 (searchCmd st0 ⟨doc, sels⟩ (some (.args a))).2 (some (.key "f"))).1 (searchCmd (searchCmd st0 ⟨doc, sels⟩ (some (.args a))).1 (searchCmd st0 ⟨doc, sels⟩ (some (.args a))).2 (some (.key "f"))).2 (some (.key "o"))).2 (some (.key "o"))).2).1.searchString.length = 2 := by rw [d1c, l4]
  obtain ⟨d2a, d2b, d2c⟩ := delStep_inv (deleteCharFromSearch (searchCmd (searchCmd (searchCmd (searchCmd st0 ⟨doc, sels⟩ (some (.args a))).1 (searchCmd st0 ⟨doc, sels⟩ (some (.args a))).2 (some (.key "f"))).1 (searchCmd (searchCmd st0 ⟨doc, sels⟩ (some (.args a))).1 (searchCmd st0 ⟨doc, sels⟩ (some (.args a))).2 (some (.key "f"))).2 (some (.key "o"))).1 (searchCmd (searchCmd (searchCmd st0 ⟨doc, sels⟩ (some (.args a))).1 (searchCmd st0 ⟨doc, sels⟩ (some (.args a))).2 (some (.key "f"))).1 (searchCmd (searchCmd st0 ⟨doc, sels⟩ (some (.args a))).1 (searchCmd st0 ⟨doc, sels⟩ (some (.args a))).2 (some (.key "f"))).2 (some (.key "o"))).2 (some (.key "o"))).1 (searchCmd (searchCmd (searchCmd (searchCmd st0 ⟨doc, sels⟩ (some (.args a))).1 (searchCmd st0 ⟨doc, sels⟩ (some (.args a))).2 (some (.key "f"))).1 (searchCmd (searchCmd st0 ⟨doc, sels⟩ (some (.args a))).1 (searchCmd st0 ⟨doc, sels⟩ (some (.args a))).2 (some (.key "f"))).2 (some (.key "o"))).1 (searchCmd (searchCmd (searchCmd st0 ⟨doc, sels⟩ (some (.args a))).1 (searchCmd st0 ⟨doc, sels⟩ (some (.args a))).2 (some (.key "f"))).1 (searchCmd (searchCmd st0 ⟨doc, sels⟩ (some (.args a))).1 (searchCmd st0 ⟨doc, sels⟩ (some (.args a))).2 (some (.key "f"))).2 (some (.key "o"))).2 (some (.key "o"))).2).1 (deleteCharFromSearch (searchCmd (searchCmd (searchCmd (searchCmd st0 ⟨doc, sels⟩ (some (.args a))).1 (searchCmd st0 ⟨doc, sels⟩ (some (.args a))).2 (some (.key "f"))).1 (searchCmd (searchCmd st0 ⟨doc, sels⟩ (some (.args a))).1 (searchCmd st0 ⟨doc, sels⟩ (some (.args a))).2 (some (.key "f"))).2 (some (.key "o"))).1 (searchCmd (searchCmd (searchCmd st0 ⟨doc, sels⟩ (some (.args a))).1 (searchCmd st0 ⟨doc, sels⟩ (some (.args a))).2 (some (.key "f"))).1 (searchCmd (searchCmd st0 ⟨doc, sels⟩ (some (.args a))).1 (searchCmd st0 ⟨doc, sels⟩ (some (.args a))).2 (some (.key "f"))).2 (some (.key "o"))).2 (some (.key "o"))).1 (searchCmd (searchCmd (searchCmd (searchCmd st0 ⟨doc, sels⟩ (some (.args a))).1 (searchCmd st0 ⟨doc, sels⟩ (some (.args a))).2 (some (.key "f"))).1 (searchCmd (searchCmd st0 ⟨doc, sels⟩ (some (.args a))).1 (searchCmd st0 ⟨doc, sels⟩ (some (.args a))).2 (some (.key "f"))).2 (some (.key "o"))).1 (searchCmd (searchCmd (searchCmd st0 ⟨doc, sels⟩ (some (.args a))).1 (searchCmd st0 ⟨doc, sels⟩ (some (.args a))).2 (some (.key "f"))).1 (searchCmd (searchCmd st0 ⟨doc, sels⟩ (some (.args a))).1 (searchCmd st0 ⟨doc, sels⟩ (some (.args a))).2 (some (.key "f"))).2 (some (.key "o"))).2 (some (.key "o"))).2).2 d1a (by rw [m5]; omega)
  have m6 : (deleteCharFromSearch (deleteCharFromSearch (searchCmd (searchCmd (searchCmd (searchCmd st0 ⟨doc, sels⟩ (some (.args a))).1 (searchCmd st0 ⟨doc, sels⟩ (some (.args a))).2 (some (.key "f"))).1 (searchCmd (searchCmd st0 ⟨doc, sels⟩ (some (.args a))).1 (searchCmd st0 ⟨doc, sels⟩ (some (.args a))).2 (some (.key "f"))).2 (some (.key "o"))).1 (searchCmd (searchCmd (searchCmd st0 ⟨doc, sels⟩ (some (.args a))).1 (searchCmd st0 ⟨doc, sels⟩ (some (.args a))).2 (some (.key "f"))).1 (searchCmd (searchCmd st0 ⟨doc, sels⟩ (some (.args a))).1 (searchCmd st0 ⟨doc, sels⟩ (some (.args a))).2 (some (.key "f"))).2 (some (.key "o"))).2 (some (.key "o"))).1 (searchCmd (searchCmd (searchCmd (searchCmd st0 ⟨doc, sels⟩ (some (.args a))).1 (searchCmd st0 ⟨doc, sels⟩ (some (.args a))).2 (some (.key "f"))).1 (searchCmd (searchCmd st0 ⟨doc, sels⟩ (some (.args a))).1 (searchCmd st0 ⟨doc, sels⟩ (some (.args a))).2 (some (.key "f"))).2 (some (.key "o"))).1 (searchCmd (searchCmd (searchCmd st0 ⟨doc, sels⟩ (some (.args a))).1 (searchCmd st0 ⟨doc, sels⟩ (some (.args a))).2 (some (.key "f"))).1 (searchCmd (searchCmd st0 ⟨doc, sels⟩ (some (.args a))).1 (searchCmd st0 ⟨doc, sels⟩ (some (.args a))).2 (some (.key "f"))).2 (some (.key "o"))).2 (some (.key "o"))).2).1 (deleteCharFromSearch (searchCmd (searchCmd (searchCmd (searchCmd st0 ⟨doc, sels⟩ (some (.args a))).1 (searchCmd st0 ⟨doc, sels⟩ (some (.args a))).2 (some (.key "f"))).1 (searchCmd (searchCmd st0 ⟨doc, sels⟩ (some (.args a))).1 (searchCmd st0 ⟨doc, sels⟩ (some (.args a))).2 (some (.key "f"))).2 (some (.key "o"))).1 (searchCmd (searchCmd (searchCmd st0 ⟨doc, sels⟩ (some (.args a))).1 (searchCmd st0 ⟨doc, sels⟩ (some (.args a))).2 (some (.key "f"))).1 (searchCmd (searchCmd st0 ⟨doc, sels⟩ (some (.args a))).1 (searchCmd st0 ⟨doc, sels⟩ (some (.args a))).2 (some (.key "f"))).2 (some (.key "o"))).2 (some (.key "o"))).1 (searchCmd (searchCmd (searchCmd (searchCmd st0 ⟨doc, sels⟩ (some (.args a))).1 (searchCmd st0 ⟨doc, sels⟩ (some (.args a))).2 (some (.key "f"))).1 (searchCmd (searchCmd st0 ⟨doc, sels⟩ (some (.args a))).1 (searchCmd st0 ⟨doc, sels⟩ (some (.args a))).2 (some (.key "f"))).2 (some (.key "o"))).1 (searchCmd (searchCmd (searchCmd st0 ⟨doc, sels⟩ (some (.args a))).1 (searchCmd st0 ⟨doc, sels⟩ (some (.args a))).2 (some (.key "f"))).1 (searchCmd (searchCmd st0 ⟨doc, sels⟩ (some (.args a))).1 (searchCmd st0 ⟨doc, sels⟩ (some (.args a))).2 (some (.key "f"))).2 (some (.key "o"))).2 (some (.key "o"))).2).2).1.searchString.length = 1 := by rw [d2c, m5]
  have hfin := deleteChar_toEmpty (deleteCharFromSearch (deleteCharFromSearch (searchCmd (searchCmd (searchCmd (searchCmd st0 ⟨doc, sels⟩ (some (.args a))).1 (searchCmd st0 ⟨doc, sels⟩ (some (.args a))).2 (some (.key "f"))).1 (searchCmd (searchCmd st0 ⟨doc, sels⟩ (some (.args a))).1 (searchCmd st0 ⟨doc, sels⟩ (some (.args a))).2 (some (.key "f"))).2 (some (.key "o"))).1 (searchCmd (searchCmd (searchCmd st0 ⟨doc, sels⟩ (some (.args a))).1 (searchCmd st0 ⟨doc, sels⟩ (some (.args a))).2 (some (.key "f"))).1 (searchCmd (searchCmd st0 ⟨doc, sels⟩ (some (.args a))).1 (searchCmd st0 ⟨doc, sels⟩ (some (.args a))).2 (some (.key "f"))).2 (some (.key "o"))).2 (some (.key "o"))).1 (searchCmd (searchCmd (searchCmd (searchCmd st0 ⟨doc, sels⟩ (some (.args a))).1 (searchCmd st0 ⟨doc, sels⟩ (some (.args a))).2 (some (.key "f"))).1 (searchCmd (searchCmd st0 ⟨doc, sels⟩ (some (.args a))).1 (searchCmd st0 ⟨doc, sels⟩ (some (.args a))).2 (some (.key "f"))).2 (some (.key "o"))).1 (searchCmd (searchCmd (searchCmd st0 ⟨doc, sels⟩ (some (.args a))).1 (searchCmd st0 ⟨doc, sels⟩ (some (.args a))).2 (some (.key "f"))).1 (searchCmd (searchCmd st0 ⟨doc, sels⟩ (some (.args a))).1 (searchCmd st0 ⟨doc, sels⟩ (some (.args a))).2 (some (.key "f"))).2 (some (.key "o"))).2 (some (.key "o"))).2).1 (deleteCharFromSearch (searchCmd (searchCmd (searchCmd (searchCmd st0 ⟨doc, sels⟩ (some (.args a))).1 (searchCmd st0 ⟨doc, sels⟩ (some (.args a))).2 (some (.key "f"))).1 (searchCmd (searchCmd st0 ⟨doc, sels⟩ (some (.args a))).1 (searchCmd st0 ⟨doc, sels⟩ (some (.args a))).2 (some (.key "f"))).2 (some (.key "o"))).1 (searchCmd (searchCmd (searchCmd st0 ⟨doc, sels⟩ (some (.args a))).1 (searchCmd st0 ⟨doc, sels⟩ (some (.args a))).2 (some (.key "f"))).1 (searchCmd (searchCmd st0 ⟨doc, sels⟩ (some (.args a))).1 (searchCmd st0 ⟨doc, sels⟩ (some (.args a))).2 (some (.key "f"))).2 (some (.key "o"))).2 (some (.key "o"))).1 (searchCmd (searchCmd (searchCmd (searchCmd st0 ⟨doc, sels⟩ (some (.args a))).1 (searchCmd st0 ⟨doc, sels⟩ (some (.args a))).2 (some (.key "f"))).1 (searchCmd (searchCmd st0 ⟨doc, sels⟩ (some (.args a))).1 (searchCmd st0 ⟨doc, sels⟩ (some (.args a))).2 (some (.key "f"))).2 (some (.key "o"))).1 (searchCmd (searchCmd (searchCmd st0 ⟨doc, sels⟩ (some (.args a))).1 (searchCmd st0 ⟨doc, sels⟩ (some (.args a))).2 (some (.key "f"))).1 (searchCmd (searchCmd st0 ⟨doc, sels⟩ (some (.args a))).1 (searchCmd st0 ⟨doc, sels⟩ (some (.args a))).2 (some (.key "f"))).2 (some (.key "o"))).2 (some (.key "o"))).2).2).1 (deleteCharFromSearch (deleteCharFromSearch (searchCmd (searchCmd (searchCmd (searchCmd st0 ⟨doc, sels⟩ (some (.args a))).1 (searchCmd st0 ⟨doc, sels⟩ (some (.args a))).2 (some (.key "f"))).1 (searchCmd (searchCmd st0 ⟨doc, sels⟩ (some (.args a))).1 (searchCmd st0 ⟨doc, sels⟩ (some (.args a))).2 (some (.key "f"))).2 (some (.key "o"))).1 (searchCmd (searchCmd (searchCmd st0 ⟨doc, sels⟩ (some (.args a))).1 (searchCmd st0 ⟨doc, sels⟩ (some (.args a))).2 (some (.key "f"))).1 (searchCmd (searchCmd st0 ⟨doc, sels⟩ (some (.args a))).1 (searchCmd st0 ⟨doc, sels⟩ (some (.args a))).2 (some (.key "f"))).2 (some (.key "o"))).2 (some (.key "o"))).1 (searchCmd (searchCmd (searchCmd (searchCmd st0 ⟨doc, sels⟩ (some (.args a))).1 (searchCmd st0 ⟨doc, sels⟩ (some (.args a))).2 (some (.key "f"))).1 (searchCmd (searchCmd st0 ⟨doc, sels⟩ (some (.args a))).1 (searchCmd st0 ⟨doc, sels⟩ (some (.args a))).2 (some (.key "f"))).2 (some (.key "o"))).1 (searchCmd (searchCmd (searchCmd st0 ⟨doc, sels⟩ (some (.args a))).1 (searchCmd st0 ⟨doc, sels⟩ (some (.args a))).2 (some (.key "f"))).1 (searchCmd (searchCmd st0 ⟨doc, sels⟩ (some (.args a))).1 (searchCmd st0 ⟨doc, sels⟩ (some (.args a))).2 (some (.key "f"))).2 (some (.key "o"))).2 (some (.key "o"))).2).1 (deleteCharFromSearch (searchCmd (searchCmd (searchCmd (searchCmd st0 ⟨doc, sels⟩ (some (.args a))).1 (searchCmd st0 ⟨doc, sels⟩ (some (.args a))).2 (some (.key "f"))).1 (searchCmd (searchCmd st0 ⟨doc, sels⟩ (some (.args a))).1 (searchCmd st0 ⟨doc, sels⟩ (some (.args a))).2 (some (.key "f"))).2 (some (.key "o"))).1 (searchCmd (searchCmd (searchCmd st0 ⟨doc, sels⟩ (some (.args a))).1 (searchCmd st0 ⟨doc, sels⟩ (some (.args a))).2 (some (.key "f"))).1 (searchCmd (searchCmd st0 ⟨doc, sels⟩ (some (.args a))).1 (searchCmd st0 ⟨doc, sels⟩ (some (.args a))).2 (some (.key "f"))).2 (some (.key "o"))).2 (some (.key "o"))).1 (searchCmd (searchCmd (searchCmd (searchCmd st0 ⟨doc, sels⟩ (some (.args a))).1 (searchCmd st0 ⟨doc, sels⟩ (some (.args a))).2 (some (.key "f"))).1 (searchCmd (searchCmd st0 ⟨doc, sels⟩ (some (.args a))).1 (searchCmd st0 ⟨doc, sels⟩ (some (.args a))).2 (some (.key "f"))).2 (some (.key "o"))).1 (searchCmd (searchCmd (searchCmd st0 ⟨doc, sels⟩ (some (.args a))).1 (searchCmd st0 ⟨doc, sels⟩ (some (.args a))).2 (some (.key "f"))).1 (searchCmd (searchCmd st0 ⟨doc, sels⟩ (some (.args a))).1 (searchCmd st0 ⟨doc, sels⟩ (some (.args a))).2 (some (.key "f"))).2 (some (.key "o"))).2 (some (.key "o"))).2).2).2 d2a m6
  simp only [runSearchOps, List.foldl]
  rw [hfin, d2b, d1b, s4c, s3c, s2c]
  rfl

/-- Witness for C7 at a concrete input. -/
theorem c7_delete_roundtrip_witness :
    (runSearchOps (initSearchState, ⟨"hello", [⟨1, 1⟩]⟩)
      [.inp (some (.args defaultSearchArgs)), .inp (some (.key "f")),
       .inp (some (.key "o")), .inp (some (.key "o")), .del, .del,
       .del]).2.selections = [⟨1, 1⟩] :=
  c7_delete_roundtrip "hello" [⟨1, 1⟩] initSearchState defaultSearchArgs
    (Or.inl rfl)

/-- Typing any sequence of ordinary characters during a search that cannot
auto-accept keeps the search active and preserves the recorded start
selections and the threshold. -/
theorem typing_fold_inv (S : List Sel) :
    ∀ (chars : List String) (p : SearchState × Editor),
    (∀ c ∈ chars, c ≠ "" ∧ c ≠ "\n") →
    p.1.searching = true → p.1.searchAcceptAfter = .posInf →
    p.1.searchStartSelections = S →
    ((runSearchOps p (chars.map (fun c => .inp (some (.key c))))).1.searching = true ∧
     (runSearchOps p (chars.map (fun c => .inp (some (.key c))))).1.searchAcceptAfter =
       .posInf ∧
     (runSearchOps p (chars.map (fun c => .inp (some (.key c))))).1.searchStartSelections =
       S) := by
  intro chars
  induction chars with
  | nil => intro p _ h1 h2 h3; exact ⟨h1, h2, h3⟩
  | cons c cs ih =>
    intro p hall h1 h2 h3
    obtain ⟨f1, f2, f3, f4, f5⟩ := searchCmd_key_fields p.1 p.2 c
      (hall c (by simp)).1 (hall c (by simp)).2
    have hnew1 : (searchCmd p.1 p.2 (some (.key c))).1.searching = true := by
      rw [f1, h2]
      simpa [jsGe] using h1
    have hnew2 : (searchCmd p.1 p.2 (some (.key c))).1.searchAcceptAfter =
        .posInf := by
      rw [f4, h2]
    have hnew3 : (searchCmd p.1 p.2 (some (.key c))).1.searchStartSelections =
        S := by
      rw [f3, h3]
    have hstep : runSearchOps p ((c :: cs).map (fun c => .inp (some (.key c)))) =
        runSearchOps (searchCmd p.1 p.2 (some (.key c)))
          (cs.map (fun c => .inp (some (.key c)))) := rfl
    rw [hstep]
    exact ih _ (fun c' hc' => hall c' (by simp [hc'])) hnew1 hnew2 hnew3

/-- Claim C8 (amended): cancelling an active search restores every cursor's
full pre-search selection (anchor and active positions exactly as recorded
when the search began); the restored selection is collapsed only if it was
already empty before the search.  Stated for a whole session: start a
search (with a threshold that never auto-accepts), type any ordinary
characters, cancel — the selections are exactly the pre-search ones and
search mode is off. -/
theorem c8_amended (st0 : SearchState) (doc : String) (sels : List Sel)
    (a : SearchArgs) (chars : List String)
    (hA : jsOrInf a.acceptAfter = .posInf)
    (hchars : ∀ c ∈ chars, c ≠ "" ∧ c ≠ "\n") :
    (runSearchOps (st0, ⟨doc, sels⟩)
      ([.inp (some (.args a))] ++
       (chars.map (fun c => .inp (some (.key c))) ++ [.cancel]))).2.selections =
      sels ∧
    (runSearchOps (st0, ⟨doc, sels⟩)
      ([.inp (some (.args a))] ++
       (chars.map (fun c => .inp (some (.key c))) ++ [.cancel]))).1.searching =
      false := by
  rw [runSearchOps_append, runSearchOps_append]
  obtain ⟨g1, g2, g3⟩ := typing_fold_inv sels chars
    (runSearchOps (st0, ⟨doc, sels⟩) [.inp (some (.args a))]) hchars rfl
    (by exact hA) rfl
  constructor
  · show (cancelSearch _ _).2.selections = sels
    unfold cancelSearch
    rw [if_pos g1]
    exact g3
  · show (cancelSearch _ _).1.searching = false
    unfold cancelSearch
    rw [if_pos g1]

/-- Witness for C8 at a concrete input. -/
theorem c8_amended_witness :
    (runSearchOps (initSearchState, ⟨"xy", [⟨1, 1⟩]⟩)
      ([.inp (some (.args defaultSearchArgs))] ++
       (["x"].map (fun c => .inp (some (.key c))) ++ [.cancel]))).2.selections =
      [⟨1, 1⟩] :=
  (c8_amended initSearchState "xy" [⟨1, 1⟩] defaultSearchArgs ["x"] rfl
    (by intro c hc; simp at hc; subst hc; exact ⟨by decide, by decide⟩)).1

/-- Claim C10 (amended): `acceptAfter` of 0 (or absent) resolves to positive
infinity, so query length never auto-accepts; any nonzero `acceptAfter` n
becomes the threshold, and a typed character ends search mode exactly when
the new query length is at least the threshold — so a negative value
auto-accepts on the first character, not only positive values. -/
theorem c10_amended (st : SearchState) (ed ed2 : Editor) (c : String)
    (a : SearchArgs) (hc1 : c ≠ "") (hc2 : c ≠ "\n") :
    (searchCmd st ed2 (some (.args a))).1.searchAcceptAfter = jsOrInf a.acceptAfter
    ∧ jsOrInf none = .posInf
    ∧ (∀ z : Int, jsOrInf (some z) = if z = 0 then .posInf else .fin z)
    ∧ (∀ L : Nat, jsGe L .posInf = false)
    ∧ (∀ (L : Nat) (z : Int), jsGe L (.fin z) = decide (z ≤ (L : Int)))
    ∧ (searchCmd st ed (some (.key c))).1.searching =
        (if jsGe (st.searchString ++ c).length st.searchAcceptAfter then false
         else st.searching) := by
  refine ⟨rfl, rfl, fun z => rfl, fun L => rfl, fun L z => rfl, ?_⟩
  exact (searchCmd_key_fields st ed c hc1 hc2).1

/-- Witness for C10 at a concrete input. -/
theorem c10_amended_witness :
    (searchCmd initSearchState ⟨"", []⟩ (some (.key "a"))).1.searching =
      (if jsGe (initSearchState.searchString ++ "a").length
          initSearchState.searchAcceptAfter then false
       else initSearchState.searching) :=
  (c10_amended initSearchState ⟨"", []⟩ ⟨"", []⟩ "a" defaultSearchArgs
    (by decide) (by decide)).2.2.2.2.2
